import Mathlib

/-!
Verification development for the operation execution engine of
`guild/op_util.py`: flag (parameter) resolution and coercion, command
building from execution templates, run output capture, and process
supervision.  Python values that can appear as flag values are embedded
as the inductive `FlagVal`; Python dicts keyed by flag name are embedded
as insertion-ordered association lists.
-/

namespace GuildOps

/-- Embedding of the Python values that flow through the flag pipeline:
`None`, `bool`, `int`, `float` (modelled as a decimal `m * 10 ^ (-e)`),
`str`, lists, and the deferred "flag function" values that bypass
coercion (modelled from the spec as an explicit tagged variant). -/
inductive FlagVal where
  | none
  | bool (b : Bool)
  | int (i : Int)
  | float (m : Int) (e : Nat)
  | str (s : String)
  | list (xs : List FlagVal)
  | deferred (expr : String)
deriving Repr

/-- Python truthiness (`bool(x)`) for embedded flag values. -/
def pyTruthy : FlagVal → Bool
  | .none => false
  | .bool b => b
  | .int i => i != 0
  | .float m _ => m != 0
  | .str s => s != ""
  | .list xs => !xs.isEmpty
  | .deferred _ => true

/-- Numeric view of a value, following the Python numeric tower where
`bool` is a subtype of `int`: the pair `(m, e)` denotes `m * 10 ^ (-e)`. -/
def numVal : FlagVal → Option (Int × Nat)
  | .bool b => some (if b then 1 else 0, 0)
  | .int i => some (i, 0)
  | .float m e => some (m, e)
  | _ => Option.none

/-- Exact comparison of two decimal numbers `m * 10 ^ (-e)`. -/
def decEqNum (p q : Int × Nat) : Bool :=
  p.1 * (10 : Int) ^ q.2 == q.1 * (10 : Int) ^ p.2

mutual

/-- Python `==` on embedded values: numeric values compare by value
across `bool`/`int`/`float`; other values compare structurally. -/
def pyEq : FlagVal → FlagVal → Bool
  | a, b =>
    match numVal a, numVal b with
    | some p, some q => decEqNum p q
    | _, _ =>
      match a, b with
      | .none, .none => true
      | .str s, .str t => s == t
      | .deferred s, .deferred t => s == t
      | .list xs, .list ys => pyEqList xs ys
      | _, _ => false

/-- Python `==` on lists, element-wise. -/
def pyEqList : List FlagVal → List FlagVal → Bool
  | [], [] => true
  | x :: xs, y :: ys => pyEq x y && pyEqList xs ys
  | _, _ => false

end

/-- Insertion-ordered association list standing in for a Python dict
with string keys. -/
abbrev AList := List (String × FlagVal)

/-- `d.get(k)` distinguished from key absence: `some v` when present. -/
def alGet : AList → String → Option FlagVal
  | [], _ => Option.none
  | (k, v) :: rest, key => if k = key then some v else alGet rest key

/-- Python `d.get(k)` with default `None`: absence and a stored `None`
both read back as `None`. -/
def pyGet (m : AList) (k : String) : FlagVal :=
  (alGet m k).getD .none

/-- `k in d`. -/
def alHasKey (m : AList) (k : String) : Bool :=
  (alGet m k).isSome

/-- `d[k] = v`: update in place when the key exists, append otherwise
(Python dicts preserve insertion order). -/
def alSet : AList → String → FlagVal → AList
  | [], key, v => [(key, v)]
  | (k, w) :: rest, key, v =>
    if k = key then (k, v) :: rest else (k, w) :: alSet rest key v

/-- `d.pop(k)`: remove the entry for `k`, keeping order of the rest. -/
def alRemove : AList → String → AList
  | [], _ => []
  | (k, w) :: rest, key =>
    if k = key then rest else (k, w) :: alRemove rest key

theorem alGet_alSet_self (m : AList) (k : String) (v : FlagVal) :
    alGet (alSet m k v) k = some v := by
  induction m with
  | nil => simp [alSet, alGet]
  | cons hd tl ih =>
    obtain ⟨k1, v1⟩ := hd
    by_cases h : k1 = k
    · subst h; simp [alSet, alGet]
    · simp [alSet, alGet, h, ih]

theorem alGet_alSet_ne (m : AList) (k k' : String) (v : FlagVal)
    (h : k ≠ k') : alGet (alSet m k v) k' = alGet m k' := by
  induction m with
  | nil => simp [alSet, alGet, h]
  | cons hd tl ih =>
    obtain ⟨k1, v1⟩ := hd
    by_cases h1 : k1 = k
    · subst h1; simp [alSet, alGet, h]
    · by_cases h2 : k1 = k' <;> simp [alSet, alGet, h1, h2, Ne.symm h, ih]

theorem alGet_alRemove_ne (m : AList) (k k' : String) (h : k ≠ k') :
    alGet (alRemove m k) k' = alGet m k' := by
  induction m with
  | nil => simp [alRemove]
  | cons hd tl ih =>
    obtain ⟨k1, v1⟩ := hd
    by_cases h1 : k1 = k
    · subst h1; simp [alRemove, alGet, h]
    · by_cases h2 : k1 = k' <;> simp [alRemove, alGet, h1, h2, Ne.symm h, ih]

/-! ### Decimal text: modelling Python `int()` / `float()` / `str()` -/

def minusChar : Char := '-'
def dotChar : Char := '.'
/-- The single-quote character, written by code point to keep the file
free of quote literals. -/
def quoteChar : Char := Char.ofNat 39

def digitChar (n : Nat) : Char := Char.ofNat (48 + n)

def digitVal (c : Char) : Nat := c.toNat - 48

def isDigitChar (c : Char) : Bool := 48 ≤ c.toNat && c.toNat ≤ 57

def allDigitChars (cs : List Char) : Bool := cs.all isDigitChar

/-- Decimal value of a digit string. -/
def digitsValue (cs : List Char) : Nat :=
  cs.foldl (fun acc c => acc * 10 + digitVal c) 0

/-- Decimal digits of a natural number, most significant first; the
fuel argument makes the recursion structural (any `fuel ≥ n` gives the
true digit string). -/
def natToDigitsAux : Nat → Nat → List Char
  | 0, n => [digitChar n]
  | fuel + 1, n =>
    if n < 10 then [digitChar n]
    else natToDigitsAux fuel (n / 10) ++ [digitChar (n % 10)]

/-- Decimal digits of a natural number, most significant first. -/
def natToDigits (n : Nat) : List Char := natToDigitsAux n n

/-- `repr` of a Python int. -/
def intToChars (i : Int) : List Char :=
  if i < 0 then minusChar :: natToDigits i.natAbs else natToDigits i.natAbs

/-- Python `int(s)` on a string (sign and decimal digits). -/
def parseDigits (cs : List Char) : Option Nat :=
  if !cs.isEmpty && allDigitChars cs then some (digitsValue cs) else Option.none

def parseIntChars (cs : List Char) : Option Int :=
  match cs with
  | [] => Option.none
  | c :: rest =>
    if c = minusChar then (parseDigits rest).map (fun n => -(n : Int))
    else (parseDigits (c :: rest)).map (fun n => (n : Int))

/-- Strip trailing decimal zeros from a fraction: `(m, e)` denotes
`m * 10 ^ (-e)`; divide out factors of ten while the fraction part is
nonempty. -/
def normFrac10 (m : Nat) : Nat → Nat × Nat
  | 0 => (m, 0)
  | e + 1 => if m % 10 = 0 then normFrac10 (m / 10) e else (m, e + 1)

def parseFloatBody (body : List Char) (neg : Bool) : Option (Int × Nat) :=
  let ip := body.takeWhile (fun c => c ≠ dotChar)
  let rest := body.dropWhile (fun c => c ≠ dotChar)
  let fp := rest.tail
  if ip.isEmpty && fp.isEmpty then Option.none
  else if allDigitChars ip && allDigitChars fp then
    let e := fp.length
    let m0 := digitsValue ip * 10 ^ e + digitsValue fp
    let q := normFrac10 m0 e
    some (if neg then -(q.1 : Int) else (q.1 : Int), q.2)
  else Option.none

/-- Python `float(s)` on a string, producing the decimal model
`(mantissa, exponent)` with the fraction normalized. -/
def parseFloatChars (cs : List Char) : Option (Int × Nat) :=
  match cs with
  | [] => Option.none
  | c :: rest =>
    if c = minusChar then parseFloatBody rest true
    else parseFloatBody (c :: rest) false

/-- Left-pad a digit string with zeros to length `k`. -/
def padDigits (ds : List Char) (k : Nat) : List Char :=
  List.replicate (k - ds.length) (digitChar 0) ++ ds

/-- `repr` of a Python float in the decimal model: digits with a decimal
point `e` places from the right (`e = 0` renders as `x.0`). -/
def floatToChars (m : Int) (e : Nat) : List Char :=
  let ds := padDigits (natToDigits m.natAbs) (e + 1)
  let ip := ds.take (ds.length - e)
  let fp := ds.drop (ds.length - e)
  (if m < 0 then [minusChar] else []) ++
    ip ++ [dotChar] ++ (if e = 0 then [digitChar 0] else fp)

theorem digitVal_digitChar {d : Nat} (h : d < 10) :
    digitVal (digitChar d) = d := by
  interval_cases d <;> decide

theorem isDigitChar_digitChar {d : Nat} (h : d < 10) :
    isDigitChar (digitChar d) = true := by
  interval_cases d <;> decide

theorem natToDigitsAux_ne_nil (fuel n : Nat) : natToDigitsAux fuel n ≠ [] := by
  cases fuel with
  | zero => simp [natToDigitsAux]
  | succ fuel =>
    rw [natToDigitsAux]
    split <;> simp

theorem natToDigits_ne_nil (n : Nat) : natToDigits n ≠ [] :=
  natToDigitsAux_ne_nil n n

theorem allDigitChars_natToDigitsAux (fuel n : Nat) (hle : n ≤ fuel) :
    allDigitChars (natToDigitsAux fuel n) = true := by
  induction fuel generalizing n with
  | zero =>
    have : n = 0 := by omega
    subst this
    simpa [natToDigitsAux, allDigitChars] using isDigitChar_digitChar (by omega)
  | succ fuel ih =>
    rw [natToDigitsAux]
    split
    · rename_i h
      simpa [allDigitChars] using isDigitChar_digitChar h
    · rename_i h
      have hdiv : n / 10 ≤ fuel := by
        have hlt : n / 10 < n := Nat.div_lt_self (by omega) (by omega)
        omega
      have h1 := ih (n / 10) hdiv
      simp only [allDigitChars, List.all_append, List.all_cons, List.all_nil,
        Bool.and_true, Bool.and_eq_true] at h1 ⊢
      exact ⟨h1, isDigitChar_digitChar (Nat.mod_lt n (by omega))⟩

theorem allDigitChars_natToDigits (n : Nat) :
    allDigitChars (natToDigits n) = true :=
  allDigitChars_natToDigitsAux n n le_rfl

theorem digitsValue_foldl (cs : List Char) (a : Nat) :
    cs.foldl (fun acc c => acc * 10 + digitVal c) a
      = a * 10 ^ cs.length + digitsValue cs := by
  induction cs generalizing a with
  | nil => simp [digitsValue]
  | cons c cs ih =>
    simp only [List.foldl_cons, List.length_cons, digitsValue] at *
    rw [ih (a * 10 + digitVal c), ih (0 * 10 + digitVal c)]
    ring

theorem digitsValue_append (xs ys : List Char) :
    digitsValue (xs ++ ys) = digitsValue xs * 10 ^ ys.length + digitsValue ys := by
  simp only [digitsValue, List.foldl_append]
  rw [digitsValue_foldl ys (List.foldl (fun acc c => acc * 10 + digitVal c) 0 xs)]
  rfl

theorem digitsValue_natToDigitsAux (fuel n : Nat) (hle : n ≤ fuel) :
    digitsValue (natToDigitsAux fuel n) = n := by
  induction fuel generalizing n with
  | zero =>
    have : n = 0 := by omega
    subst this
    simp [natToDigitsAux, digitsValue, digitVal_digitChar (by omega : (0:Nat) < 10)]
  | succ fuel ih =>
    rw [natToDigitsAux]
    split
    · rename_i h
      simp [digitsValue, digitVal_digitChar h]
    · rename_i h
      have hdiv : n / 10 ≤ fuel := by
        have hlt : n / 10 < n := Nat.div_lt_self (by omega) (by omega)
        omega
      rw [digitsValue_append, ih (n / 10) hdiv]
      have : digitsValue [digitChar (n % 10)] = n % 10 := by
        simp [digitsValue, digitVal_digitChar (Nat.mod_lt n (by omega))]
      rw [this]
      simp only [List.length_cons, List.length_nil, pow_one]
      omega

theorem digitsValue_natToDigits (n : Nat) :
    digitsValue (natToDigits n) = n :=
  digitsValue_natToDigitsAux n n le_rfl

theorem parseDigits_natToDigits (n : Nat) :
    parseDigits (natToDigits n) = some n := by
  simp [parseDigits, natToDigits_ne_nil, allDigitChars_natToDigits,
    digitsValue_natToDigits, List.isEmpty_iff]

theorem head_natToDigits_isDigit (n : Nat) :
    ∃ c cs, natToDigits n = c :: cs ∧ isDigitChar c = true := by
  have h := allDigitChars_natToDigits n
  have hne := natToDigits_ne_nil n
  cases hcs : natToDigits n with
  | nil => exact absurd hcs hne
  | cons c cs =>
    refine ⟨c, cs, rfl, ?_⟩
    rw [hcs] at h
    simp only [allDigitChars, List.all_cons, Bool.and_eq_true] at h
    exact h.1

theorem parseIntChars_intToChars (i : Int) :
    parseIntChars (intToChars i) = some i := by
  by_cases h : i < 0
  · rw [intToChars, if_pos h]
    simp only [parseIntChars, if_pos rfl, parseDigits_natToDigits]
    exact congrArg some (by omega : -(i.natAbs : Int) = i)
  · rw [intToChars, if_neg h]
    obtain ⟨c, cs, hcs, hd⟩ := head_natToDigits_isDigit i.natAbs
    rw [hcs]
    have hcm : ¬ c = minusChar := by
      intro hc
      subst hc
      simp [isDigitChar, minusChar] at hd
    rw [parseIntChars, if_neg hcm, ← hcs, parseDigits_natToDigits]
    exact congrArg some (by omega : ((i.natAbs : Int)) = i)

theorem digit_ne_dot {c : Char} (h : isDigitChar c = true) : ¬ c = dotChar := by
  intro heq
  subst heq
  revert h
  decide

theorem digit_ne_minus {c : Char} (h : isDigitChar c = true) : ¬ c = minusChar := by
  intro heq
  subst heq
  revert h
  decide

theorem digit_ne_quote {c : Char} (h : isDigitChar c = true) : ¬ c = quoteChar := by
  intro heq
  subst heq
  revert h
  decide

theorem takeWhile_digits_dot (xs ys : List Char) (h : allDigitChars xs = true) :
    (xs ++ dotChar :: ys).takeWhile (fun c => c ≠ dotChar) = xs := by
  induction xs with
  | nil =>
    rw [List.nil_append, List.takeWhile_cons, if_neg (by simp)]
  | cons x xs ih =>
    simp only [allDigitChars, List.all_cons, Bool.and_eq_true] at h
    rw [List.cons_append, List.takeWhile_cons,
      if_pos (by simpa using digit_ne_dot h.1),
      ih (by simpa [allDigitChars] using h.2)]

theorem dropWhile_digits_dot (xs ys : List Char) (h : allDigitChars xs = true) :
    (xs ++ dotChar :: ys).dropWhile (fun c => c ≠ dotChar) = dotChar :: ys := by
  induction xs with
  | nil =>
    rw [List.nil_append, List.dropWhile_cons, if_neg (by simp)]
  | cons x xs ih =>
    simp only [allDigitChars, List.all_cons, Bool.and_eq_true] at h
    rw [List.cons_append, List.dropWhile_cons,
      if_pos (by simpa using digit_ne_dot h.1),
      ih (by simpa [allDigitChars] using h.2)]

theorem allDigitChars_append_dot (xs ys : List Char) :
    allDigitChars (xs ++ dotChar :: ys) = false := by
  simp only [allDigitChars, List.all_append, List.all_cons]
  have : isDigitChar dotChar = false := by decide
  simp [this]

theorem digitsValue_cons (c : Char) (cs : List Char) :
    digitsValue (c :: cs) = digitVal c * 10 ^ cs.length + digitsValue cs := by
  simp only [digitsValue, List.foldl_cons]
  rw [digitsValue_foldl]
  ring_nf
  rfl

theorem digitsValue_replicate_zero (k : Nat) :
    digitsValue (List.replicate k (digitChar 0)) = 0 := by
  induction k with
  | zero => rfl
  | succ k ih =>
    rw [List.replicate_succ, digitsValue_cons, ih]
    have : digitVal (digitChar 0) = 0 := digitVal_digitChar (by omega)
    simp [this]

theorem digitsValue_padDigits (ds : List Char) (k : Nat) :
    digitsValue (padDigits ds k) = digitsValue ds := by
  rw [padDigits, digitsValue_append, digitsValue_replicate_zero]
  simp

theorem allDigitChars_padDigits (ds : List Char) (k : Nat)
    (h : allDigitChars ds = true) : allDigitChars (padDigits ds k) = true := by
  simp only [padDigits, allDigitChars, List.all_append, Bool.and_eq_true]
  refine ⟨?_, h⟩
  simp only [List.all_eq_true]
  intro c hc
  rw [List.eq_of_mem_replicate hc]
  exact isDigitChar_digitChar (by omega)

theorem length_padDigits (ds : List Char) (k : Nat) :
    (padDigits ds k).length = max k ds.length := by
  simp only [padDigits, List.length_append, List.length_replicate]
  omega

theorem normFrac10_canonical (e m : Nat) :
    (normFrac10 m e).2 = 0 ∨ (normFrac10 m e).1 % 10 ≠ 0 := by
  induction e generalizing m with
  | zero => left; rfl
  | succ e ih =>
    rw [normFrac10]
    split
    · exact ih (m / 10)
    · right
      rename_i h
      exact h

theorem normFrac10_eq_self (e m : Nat) (h : e = 0 ∨ m % 10 ≠ 0) :
    normFrac10 m e = (m, e) := by
  cases e with
  | zero => rfl
  | succ e =>
    rcases h with h | h
    · omega
    · rw [normFrac10, if_neg h]

/-- Main float round trip: parsing the rendered decimal of a canonical
`(m, e)` recovers `(m, e)` exactly. -/
theorem parseFloatChars_floatToChars (m : Int) (e : Nat)
    (hcanon : e = 0 ∨ m.natAbs % 10 ≠ 0) :
    parseFloatChars (floatToChars m e) = some (m, e) := by
  set a := m.natAbs with ha
  set ds := padDigits (natToDigits a) (e + 1) with hds
  have hall : allDigitChars ds = true :=
    allDigitChars_padDigits _ _ (allDigitChars_natToDigits a)
  have hval : digitsValue ds = a := by
    rw [hds, digitsValue_padDigits, digitsValue_natToDigits]
  have hlen : e + 1 ≤ ds.length := by
    rw [hds, length_padDigits]
    omega
  set L := ds.length with hL
  set ip := ds.take (L - e) with hip
  set fp := ds.drop (L - e) with hfp
  have hsplit : ip ++ fp = ds := List.take_append_drop _ _
  have hiplen : ip.length = L - e := by
    rw [hip, List.length_take]
    omega
  have hfplen : fp.length = e := by
    rw [hfp, List.length_drop]
    omega
  have hipall : allDigitChars ip = true := by
    have := hall
    rw [← hsplit] at this
    simp only [allDigitChars, List.all_append, Bool.and_eq_true] at this
    exact this.1
  have hfpall : allDigitChars fp = true := by
    have := hall
    rw [← hsplit] at this
    simp only [allDigitChars, List.all_append, Bool.and_eq_true] at this
    exact this.2
  have hipne : ip ≠ [] := by
    intro hnil
    have : ip.length = 0 := by rw [hnil]; rfl
    omega
  have hdsval : digitsValue ip * 10 ^ e + digitsValue fp = a := by
    have := hval
    rw [← hsplit, digitsValue_append, hfplen] at this
    exact this
  -- the rendered character list
  have hrender : floatToChars m e =
      (if m < 0 then [minusChar] else []) ++
        (ip ++ dotChar :: (if e = 0 then [digitChar 0] else fp)) := by
    rw [floatToChars]
    simp only [← hds, ← hL, ← hip, ← hfp]
    simp [List.append_assoc]
  -- parsing the body after the optional sign
  have hbody : ∀ neg : Bool,
      parseFloatBody (ip ++ dotChar :: (if e = 0 then [digitChar 0] else fp)) neg
        = some (if neg then -(a : Int) else (a : Int), e) := by
    intro neg
    rw [parseFloatBody]
    simp only [takeWhile_digits_dot _ _ hipall, dropWhile_digits_dot _ _ hipall,
      List.tail_cons]
    rw [if_neg (by simp [List.isEmpty_iff, hipne])]
    by_cases he : e = 0
    · subst he
      have hfp0 : ip = ds := by
        rw [hip]
        simp [List.take_of_length_le (by omega : L ≤ L - 0)]
      rw [if_pos rfl]
      have hdall : allDigitChars [digitChar 0] = true := by decide
      rw [if_pos (by simp [hipall, hdall])]
      simp only [List.length_cons, List.length_nil]
      have hv0 : digitsValue [digitChar 0] = 0 := by decide
      rw [hv0, hfp0, hval]
      have : a * 10 ^ 1 + 0 = a * 10 := by ring
      rw [this]
      have hnf : normFrac10 (a * 10) 1 = (a, 0) := by
        rw [normFrac10, if_pos (by omega)]
        rw [Nat.mul_div_cancel a (by omega : (0:Nat) < 10)]
        rfl
      rw [hnf]
    · rw [if_neg he]
      rw [if_pos (by simp [hipall, hfpall])]
      rw [hfplen, hdsval]
      rw [normFrac10_eq_self e a (by tauto)]
  by_cases hm : m < 0
  · rw [hrender, if_pos hm, List.singleton_append]
    have hstep : parseFloatChars
        (minusChar :: (ip ++ dotChar :: if e = 0 then [digitChar 0] else fp))
          = parseFloatBody (ip ++ dotChar :: if e = 0 then [digitChar 0] else fp)
              true := by
      simp [parseFloatChars]
    rw [hstep, hbody true]
    have hma : -(a : Int) = m := by omega
    rw [if_pos rfl, hma]
  · rw [hrender, if_neg hm, List.nil_append]
    obtain ⟨c, ip2, hcons⟩ := List.exists_cons_of_ne_nil hipne
    have hcd : isDigitChar c = true := by
      have hx := hipall
      rw [hcons] at hx
      simp only [allDigitChars, List.all_cons, Bool.and_eq_true] at hx
      exact hx.1
    rw [hcons, List.cons_append]
    have hstep : parseFloatChars
        (c :: (ip2 ++ dotChar :: if e = 0 then [digitChar 0] else fp))
          = parseFloatBody
              (c :: (ip2 ++ dotChar :: if e = 0 then [digitChar 0] else fp))
              false := by
      simp [parseFloatChars, digit_ne_minus hcd]
    rw [hstep, ← List.cons_append, ← hcons, hbody false]
    have hma : (a : Int) = m := by omega
    rw [if_neg (by simp), hma]

/-! ### Spec-modelled `flag_util` encoding (not part of the sources) -/

theorem string_mk_data (s : String) : String.mk s.data = s := rfl

theorem data_string_mk (cs : List Char) : (String.mk cs).data = cs := rfl

/-- True when rendering the string bare would let it read back as some
other scalar (or clash with the quoting scheme). -/
def needsQuote (s : String) : Bool :=
  s == "" || s == "null" || s == "true" || s == "false" ||
  s == "None" || s == "True" || s == "False" ||
  (parseIntChars s.data).isSome || (parseFloatChars s.data).isSome ||
  s.data.head? == some quoteChar

/-- Modelled from the spec: `flag_util.encode_flag_val` is not under
`src/`; the spec describes a caller-visible delimiter-encoded textual
form that round-trips through decode→coerce→encode.  Scalars render as
YAML-style text; a string that would read back as another scalar is
single-quoted.  (Lists never reach this encoder on the split path: the
element-wise branch of `coerce_flag_value` runs first.) -/
def encode_flag_val : FlagVal → String
  | .none => "null"
  | .bool true => "true"
  | .bool false => "false"
  | .int i => String.mk (intToChars i)
  | .float m e => String.mk (floatToChars m e)
  | .str s =>
    if needsQuote s then String.mk (quoteChar :: (s.data ++ [quoteChar])) else s
  | .list _ => String.mk [quoteChar, quoteChar]
  | .deferred expr => expr

/-- Modelled from the spec: `flag_util.decode_flag_val` — read a scalar
back from its textual form (quoted string, int, float, keyword, else a
bare string). -/
def decode_flag_val (s : String) : FlagVal :=
  let cs := s.data
  if 2 ≤ cs.length && cs.head? == some quoteChar && cs.getLast? == some quoteChar
  then .str (String.mk (cs.drop 1).dropLast)
  else
    match parseIntChars cs with
    | some i => .int i
    | Option.none =>
      match parseFloatChars cs with
      | some q => .float q.1 q.2
      | Option.none =>
        if s == "null" then .none
        else if s == "true" then .bool true
        else if s == "false" then .bool false
        else .str s

/-- Values that the typed coercion can produce: scalars, with floats in
normalized decimal form. -/
def canonicalScalar : FlagVal → Prop
  | .float m e => e = 0 ∨ m.natAbs % 10 ≠ 0
  | .list _ => False
  | .deferred _ => False
  | _ => True

theorem intToChars_head (i : Int) :
    ∃ c rest, intToChars i = c :: rest ∧ (isDigitChar c = true ∨ c = minusChar) := by
  rw [intToChars]
  by_cases h : i < 0
  · exact ⟨minusChar, natToDigits i.natAbs, by rw [if_pos h], Or.inr rfl⟩
  · rw [if_neg h]
    obtain ⟨c, cs, hcs, hd⟩ := head_natToDigits_isDigit i.natAbs
    exact ⟨c, cs, hcs, Or.inl hd⟩

theorem quote_cond_false_of_head (cs : List Char) (c : Char) (rest : List Char)
    (hcs : cs = c :: rest) (hq : ¬ c = quoteChar) :
    (2 ≤ cs.length && cs.head? == some quoteChar
      && cs.getLast? == some quoteChar) = false := by
  subst hcs
  simp [List.head?, hq]

theorem decode_encode_int (i : Int) :
    decode_flag_val (encode_flag_val (.int i)) = .int i := by
  rw [encode_flag_val]
  obtain ⟨c, rest, hcs, hd⟩ := intToChars_head i
  have hq : ¬ c = quoteChar := by
    rcases hd with hd | hd
    · exact digit_ne_quote hd
    · subst hd; decide
  simp only [decode_flag_val, data_string_mk]
  rw [quote_cond_false_of_head _ c rest hcs hq]
  simp only [Bool.false_eq_true, if_false]
  rw [parseIntChars_intToChars i]

theorem mem_dot_floatToChars (m : Int) (e : Nat) :
    dotChar ∈ floatToChars m e := by
  simp [floatToChars]

theorem allDigitChars_false_of_dot_mem (cs : List Char) (h : dotChar ∈ cs) :
    allDigitChars cs = false := by
  simp only [allDigitChars]
  rw [List.all_eq_false]
  exact ⟨dotChar, h, by decide⟩

theorem parseIntChars_eq_none_of_dot_mem (cs : List Char) (h : dotChar ∈ cs) :
    parseIntChars cs = Option.none := by
  match cs, h with
  | c :: rest, h =>
    rw [parseIntChars]
    by_cases hc : c = minusChar
    · rw [if_pos hc]
      have hdm : dotChar ∈ rest := by
        rcases List.mem_cons.mp h with h1 | h1
        · exact absurd (hc ▸ h1) (by decide)
        · exact h1
      rw [parseDigits, if_neg (by simp [allDigitChars_false_of_dot_mem rest hdm])]
      rfl
    · rw [if_neg hc]
      rw [parseDigits, if_neg (by simp [allDigitChars_false_of_dot_mem _ h])]
      rfl

theorem floatToChars_head (m : Int) (e : Nat) :
    ∃ c rest, floatToChars m e = c :: rest
      ∧ (isDigitChar c = true ∨ c = minusChar) := by
  set a := m.natAbs with ha
  set ds := padDigits (natToDigits a) (e + 1) with hds
  have hall : allDigitChars ds = true :=
    allDigitChars_padDigits _ _ (allDigitChars_natToDigits a)
  have hlen : e + 1 ≤ ds.length := by
    rw [hds, length_padDigits]
    omega
  set L := ds.length with hL
  set ip := ds.take (L - e) with hip
  have hiplen : ip.length = L - e := by
    rw [hip, List.length_take]
    omega
  have hipne : ip ≠ [] := by
    intro hnil
    rw [hnil] at hiplen
    simp only [List.length_nil] at hiplen
    omega
  obtain ⟨c, ip2, hcons⟩ := List.exists_cons_of_ne_nil hipne
  have hcd : isDigitChar c = true := by
    have hmem : c ∈ ds := List.take_subset _ _ (hcons ▸ List.mem_cons_self c ip2)
    have := hall
    simp only [allDigitChars, List.all_eq_true] at this
    exact this c hmem
  have hrender : floatToChars m e =
      (if m < 0 then [minusChar] else []) ++
        (ip ++ dotChar :: (if e = 0 then [digitChar 0] else ds.drop (L - e))) := by
    rw [floatToChars]
    simp only [← hds, ← hL, ← hip]
    simp [List.append_assoc]
  by_cases hm : m < 0
  · refine ⟨minusChar,
      ip ++ dotChar :: (if e = 0 then [digitChar 0] else ds.drop (L - e)),
      ?_, Or.inr rfl⟩
    rw [hrender, if_pos hm, List.singleton_append]
  · refine ⟨c, ip2 ++ dotChar :: (if e = 0 then [digitChar 0] else ds.drop (L - e)),
      ?_, Or.inl hcd⟩
    rw [hrender, if_neg hm, List.nil_append, hcons, List.cons_append]

theorem decode_encode_float (m : Int) (e : Nat)
    (hc : e = 0 ∨ m.natAbs % 10 ≠ 0) :
    decode_flag_val (encode_flag_val (.float m e)) = .float m e := by
  rw [encode_flag_val]
  obtain ⟨c, rest, hcs, hd⟩ := floatToChars_head m e
  have hq : ¬ c = quoteChar := by
    rcases hd with hd | hd
    · exact digit_ne_quote hd
    · subst hd; decide
  simp only [decode_flag_val, data_string_mk]
  rw [quote_cond_false_of_head _ c rest hcs hq]
  simp only [Bool.false_eq_true, if_false]
  rw [parseIntChars_eq_none_of_dot_mem _ (mem_dot_floatToChars m e)]
  rw [parseFloatChars_floatToChars m e hc]

theorem decode_encode_none : decode_flag_val (encode_flag_val .none) = .none := by
  rfl

theorem decode_encode_bool (b : Bool) :
    decode_flag_val (encode_flag_val (.bool b)) = .bool b := by
  cases b <;> rfl

theorem decode_encode_str (s : String) :
    decode_flag_val (encode_flag_val (.str s)) = .str s := by
  rw [encode_flag_val]
  by_cases hq : needsQuote s = true
  · rw [if_pos hq]
    simp only [decode_flag_val, data_string_mk]
    have hlast : (quoteChar :: (s.data ++ [quoteChar])).getLast? = some quoteChar := by
      rw [← List.cons_append, List.getLast?_concat]
    have hcond : (decide (2 ≤ (quoteChar :: (s.data ++ [quoteChar])).length)
        && (quoteChar :: (s.data ++ [quoteChar])).head? == some quoteChar
        && (quoteChar :: (s.data ++ [quoteChar])).getLast? == some quoteChar) = true := by
      simp [hlast]
    rw [if_pos hcond]
    rw [List.drop_one, List.tail_cons, List.dropLast_concat, string_mk_data]
  · rw [if_neg hq]
    rw [Bool.not_eq_true] at hq
    simp only [needsQuote, Bool.or_eq_false_eq_eq_false_and_eq_false] at hq
    obtain ⟨⟨⟨⟨⟨⟨⟨⟨⟨h1, h2⟩, h3⟩, h4⟩, h5⟩, h6⟩, h7⟩, h8⟩, h9⟩, h10⟩ := hq
    have h8' : parseIntChars s.data = Option.none := by
      cases hp : parseIntChars s.data with
      | some i => rw [hp] at h8; simp at h8
      | none => rfl
    have h9' : parseFloatChars s.data = Option.none := by
      cases hp : parseFloatChars s.data with
      | some q => rw [hp] at h9; simp at h9
      | none => rfl
    simp only [decode_flag_val]
    simp [h8', h9', h10, h2, h3, h4]

theorem decode_encode_canonical (v : FlagVal) (h : canonicalScalar v) :
    decode_flag_val (encode_flag_val v) = v := by
  cases v with
  | none => exact decode_encode_none
  | bool b => exact decode_encode_bool b
  | int i => exact decode_encode_int i
  | float m e => exact decode_encode_float m e h
  | str s => exact decode_encode_str s
  | list xs => exact absurd h (by simp [canonicalScalar])
  | deferred s => exact absurd h (by simp [canonicalScalar])

/-- Modelled from the spec: split a character list on a delimiter
(`flag_util.split_encoded_flag_val` is not under `src/`). -/
def splitOnChar (d : Char) : List Char → List (List Char)
  | [] => [[]]
  | c :: rest =>
    match splitOnChar d rest with
    | [] => [[c]]
    | g :: gs => if c = d then [] :: g :: gs else (c :: g) :: gs

/-- Modelled from the spec: the caller-visible split of the encoded
textual form of a multi-value flag on its declared delimiter. -/
def split_encoded_flag_val (encoded : String) (d : Char) : List String :=
  (splitOnChar d encoded.data).map String.mk

/-- Join character-list parts with the delimiter between them. -/
def joinChar (d : Char) : List (List Char) → List Char
  | [] => []
  | [p] => p
  | p :: ps => p ++ d :: joinChar d ps

/-- Modelled from the spec: re-join coerced parts in the flag's encoded
form (`flag_util.join_splittable_flag_vals` is not under `src/`). -/
def join_splittable_flag_vals (vals : List FlagVal) (d : Char) : String :=
  String.mk (joinChar d (vals.map (fun v => (encode_flag_val v).data)))

theorem splitOnChar_ne_nil (d : Char) (cs : List Char) : splitOnChar d cs ≠ [] := by
  cases cs with
  | nil => simp [splitOnChar]
  | cons c rest =>
    rw [splitOnChar]
    cases splitOnChar d rest with
    | nil => simp
    | cons g gs =>
      by_cases h : c = d <;> simp [h]

theorem splitOnChar_no_delim (d : Char) (cs : List Char) (h : d ∉ cs) :
    splitOnChar d cs = [cs] := by
  induction cs with
  | nil => rfl
  | cons c rest ih =>
    have hcd : ¬ c = d := by
      intro hc
      subst hc
      exact h (List.mem_cons_self c rest)
    rw [splitOnChar, ih (fun hm => h (List.mem_cons_of_mem c hm))]
    simp [hcd]

theorem splitOnChar_append (d : Char) (xs ys : List Char) (h : d ∉ xs) :
    splitOnChar d (xs ++ d :: ys) = xs :: splitOnChar d ys := by
  induction xs with
  | nil =>
    rw [List.nil_append, splitOnChar]
    cases hs : splitOnChar d ys with
    | nil => exact absurd hs (splitOnChar_ne_nil d ys)
    | cons g gs => simp
  | cons x xs ih =>
    have hxd : ¬ x = d := by
      intro hc
      subst hc
      exact h (List.mem_cons_self x xs)
    rw [List.cons_append, splitOnChar,
      ih (fun hm => h (List.mem_cons_of_mem x hm))]
    simp [hxd]

theorem splitOnChar_joinChar (d : Char) (parts : List (List Char))
    (hne : parts ≠ []) (h : ∀ p ∈ parts, d ∉ p) :
    splitOnChar d (joinChar d parts) = parts := by
  induction parts with
  | nil => exact absurd rfl hne
  | cons p ps ih =>
    cases ps with
    | nil =>
      rw [joinChar, splitOnChar_no_delim d p (h p (List.mem_cons_self p []))]
    | cons q qs =>
      rw [joinChar, splitOnChar_append d p _ (h p (List.mem_cons_self p _))]
      rw [ih (List.cons_ne_nil q qs) (fun r hr => h r (List.mem_cons_of_mem p hr))]
      intro hh
      exact absurd hh (List.cons_ne_nil q qs)

/-- Splitting the joined encoding of delimiter-free values recovers the
per-value encodings. -/
theorem split_join_encoded (d : Char) (vals : List FlagVal) (hne : vals ≠ [])
    (h : ∀ v ∈ vals, d ∉ (encode_flag_val v).data) :
    split_encoded_flag_val (join_splittable_flag_vals vals d) d
      = vals.map encode_flag_val := by
  rw [split_encoded_flag_val, join_splittable_flag_vals, data_string_mk]
  rw [splitOnChar_joinChar d _ (by simpa using hne)
    (by intro p hp
        simp only [List.mem_map] at hp
        obtain ⟨v, hv, rfl⟩ := hp
        exact h v hv)]
  rw [List.map_map]
  exact List.map_congr_left (fun v _ => string_mk_data (encode_flag_val v))

/-! ### Flag definitions and the resolution pipeline (`op_util.py`) -/

/-- One choice of a flag definition. -/
structure FlagChoice where
  value : FlagVal := .none
  alias_ : Option String := Option.none
  flags : AList := []
deriving Repr

/-- A flag definition, restricted to the fields the resolution pipeline
reads. -/
structure FlagDef where
  name : String
  alias_ : Option String := Option.none
  type : Option String := Option.none
  default : FlagVal := .none
  required : Bool := false
  min : FlagVal := .none
  max : FlagVal := .none
  choices : List FlagChoice := []
  allowOther : Bool := false
  argSplit : Option Char := Option.none
deriving Repr

/-- The Python exceptions the pipeline can raise. -/
inductive PyErr where
  | valueError (msg : String)
  | typeError
  | invalidFlagValue (val : FlagVal) (flagName : String) (msg : String)
  | invalidFlagChoice (val : FlagVal) (flagName : String)
  | noSuchFlag (name : String)
  | aliasAndNameSpecified (name : String) (aliasName : String)
  | missingRequiredFlags (missing : List String)
deriving Repr

def isNone : FlagVal → Bool
  | .none => true
  | _ => false

def isFloat : FlagVal → Bool
  | .float _ _ => true
  | _ => false

/-- `isinstance(val, (float, int))`, where Python `bool` is an `int`. -/
def isFloatOrInt : FlagVal → Bool
  | .float _ _ => true
  | .int _ => true
  | .bool _ => true
  | _ => false

/-- Truthiness of an optional string (`None` and `""` are falsy). -/
def optStrTruthy : Option String → Bool
  | Option.none => false
  | some s => s != ""

/-- `flag_util.is_flag_function`: deferred "flag function" values bypass
coercion and validation (modelled from the spec §9 as a tagged variant). -/
def is_flag_function : FlagVal → Bool
  | .deferred _ => true
  | _ => false

/-- Python `str(x)` for the scalar values the pipeline can see. -/
def pyStrFun : FlagVal → String
  | .str s => s
  | .int i => String.mk (intToChars i)
  | .bool true => "True"
  | .bool false => "False"
  | .float m e => String.mk (floatToChars m e)
  | .none => "None"
  | .list _ => "[...]"
  | .deferred s => s

/-- Python `int(x)`: `ValueError` on a bad literal, `TypeError` on an
unsupported type. -/
def pyIntFun : FlagVal → Except PyErr FlagVal
  | .bool b => .ok (.int (if b then 1 else 0))
  | .int i => .ok (.int i)
  | .float m e =>
    .ok (.int (if m < 0 then -((m.natAbs / 10 ^ e : Nat) : Int)
      else ((m.natAbs / 10 ^ e : Nat) : Int)))
  | .str s =>
    match parseIntChars s.data with
    | some i => .ok (.int i)
    | Option.none => .error (.valueError "invalid literal for int")
  | .deferred _ => .error (.valueError "invalid literal for int")
  | _ => .error .typeError

/-- Python `float(x)`. -/
def pyFloatFun : FlagVal → Except PyErr FlagVal
  | .bool b => .ok (.float (if b then 1 else 0) 0)
  | .int i => .ok (.float i 0)
  | .float m e => .ok (.float m e)
  | .str s =>
    match parseFloatChars s.data with
    | some q => .ok (.float q.1 q.2)
    | Option.none => .error (.valueError "could not convert string to float")
  | .deferred _ => .error (.valueError "could not convert string to float")
  | _ => .error .typeError

/-- Python `bool(x)` (total). -/
def pyBoolFun (v : FlagVal) : Except PyErr FlagVal := .ok (.bool (pyTruthy v))

/-- Python `str(x)` as a coercion function (total). -/
def pyStrCoerce (v : FlagVal) : Except PyErr FlagVal := .ok (.str (pyStrFun v))

def typeNameForMsg : Option String → String
  | some s => s
  | Option.none => "None"

/-- `_try_coerce_flag_val(val, funs, flagdef)`: apply each function in
turn, treating `ValueError` as "try the next one"; `TypeError`
propagates; all failing raises `ValueError`. -/
def _try_coerce_flag_val
    (val : FlagVal) (funs : List (FlagVal → Except PyErr FlagVal))
    (fd : FlagDef) : Except PyErr FlagVal :=
  match funs with
  | [] => .error (.valueError ("invalid value for type " ++ typeNameForMsg fd.type))
  | f :: rest =>
    match f val with
    | .ok v => .ok v
    | .error (.valueError _) => _try_coerce_flag_val val rest fd
    | .error e => .error e

/-- Modelled from the spec: `_resolve_rel_path` resolves a relative path
against the working directory via `os.path.expanduser`/`abspath`; the
filesystem is abstracted as the fixed working directory `/cwd`. -/
def _resolve_rel_path (s : String) : String :=
  if s != "" && !(s.startsWith "/") then "/cwd/" ++ s else s

def applyResolveRelPath : FlagVal → Except PyErr FlagVal
  | .str s => .ok (.str (_resolve_rel_path s))
  | _ => .error .typeError

/-- `_coerce_typed_flag_value(val, flagdef)`. -/
def _coerce_typed_flag_value (val : FlagVal) (fd : FlagDef) : Except PyErr FlagVal :=
  match fd.type with
  | some "string" => _try_coerce_flag_val val [pyStrCoerce] fd
  | some "int" =>
    if isFloat val then .error (.valueError "invalid value for type int")
    else _try_coerce_flag_val val [pyIntFun] fd
  | some "float" => _try_coerce_flag_val val [pyFloatFun] fd
  | some "boolean" => _try_coerce_flag_val val [pyBoolFun] fd
  | some "number" =>
    if isFloatOrInt val then .ok val
    else _try_coerce_flag_val val [pyIntFun, pyFloatFun] fd
  | some "path" => applyResolveRelPath val
  | some "existing-path" => applyResolveRelPath val
  | _ => .ok val

/-- `_ensure_encoded_flag_val(val)`. -/
def _ensure_encoded_flag_val : FlagVal → String
  | .str s => s
  | v => encode_flag_val v

/-- `_coerce_flag_val_split_parts(val, flagdef)`: decode the encoded
textual form into parts, coerce each part, re-join in encoded form. -/
def _coerce_flag_val_split_parts (val : FlagVal) (fd : FlagDef) : Except PyErr FlagVal :=
  match fd.argSplit with
  | some d =>
    let encoded := _ensure_encoded_flag_val val
    let parts := split_encoded_flag_val encoded d
    (parts.mapM (fun p => _coerce_typed_flag_value (.str p) fd)).map
      (fun coerced => .str (join_splittable_flag_vals coerced d))
  | Option.none => .ok val

/-- `not flagdef.type` (None or empty string). -/
def typeFalsy : Option String → Bool
  | Option.none => true
  | some s => s == ""

mutual

/-- `coerce_flag_value(val, flagdef)`. -/
def coerce_flag_value (val : FlagVal) (fd : FlagDef) : Except PyErr FlagVal :=
  if isNone val || typeFalsy fd.type || fd.type == some "auto"
      || is_flag_function val then
    .ok val
  else
    match val with
    | .list xs => (coerceValList xs fd).map FlagVal.list
    | v =>
      if fd.argSplit.isSome then _coerce_flag_val_split_parts v fd
      else _coerce_typed_flag_value v fd

/-- The element-wise list branch of `coerce_flag_value`. -/
def coerceValList (xs : List FlagVal) (fd : FlagDef) : Except PyErr (List FlagVal) :=
  match xs with
  | [] => .ok []
  | x :: rest => do
    let cx ← coerce_flag_value x fd
    let crest ← coerceValList rest fd
    return cx :: crest

end

/-- `_coerced_flag_value(name, val, flagdefs)`: wrap coercion failures in
`InvalidFlagValue`; values without a flag def pass through. -/
def _coerced_flag_value (name : String) (val : FlagVal)
    (flagdefs : List FlagDef) : Except PyErr FlagVal :=
  match flagdefs.find? (fun fd => fd.name == name) with
  | Option.none => .ok val
  | some fd =>
    match coerce_flag_value val fd with
    | .ok v => .ok v
    | .error (.valueError msg) => .error (.invalidFlagValue val name msg)
    | .error .typeError => .error (.invalidFlagValue val name "type error")
    | .error e => .error e

/-- `_apply_coerce_flag_vals(flagdefs, force, vals)`: coerce each entry
in place; under `force`, `InvalidFlagValue` is swallowed and the
original value retained. -/
def _apply_coerce_flag_vals (flagdefs : List FlagDef) (force : Bool) :
    AList → Except PyErr AList
  | [] => .ok []
  | (name, val) :: rest =>
    match _coerced_flag_value name val flagdefs with
    | .ok coerced =>
      (_apply_coerce_flag_vals flagdefs force rest).map ((name, coerced) :: ·)
    | .error e =>
      match e, force with
      | .invalidFlagValue _ _ _, true =>
        (_apply_coerce_flag_vals flagdefs force rest).map ((name, val) :: ·)
      | _, _ => .error e

/-- `_check_no_such_flags(flag_vals, flagdefs)`. -/
def _check_no_such_flags (flag_vals : AList) (flagdefs : List FlagDef) :
    Except PyErr Unit :=
  match flag_vals.find? (fun kv => !(flagdefs.any (fun fd => fd.name == kv.1))) with
  | some kv => .error (.noSuchFlag kv.1)
  | Option.none => .ok ()

/-- `_check_flag_choice(val, flag)`: falsy values, `allow-other`, and
flags without choices are exempt; otherwise the value must match some
choice by alias or value. -/
def _check_flag_choice (val : FlagVal) (flag : FlagDef) : Except PyErr Unit :=
  if !pyTruthy val || flag.allowOther || flag.choices.isEmpty then .ok ()
  else if flag.choices.any (fun choice =>
      (optStrTruthy choice.alias_ && pyEq val (.str (choice.alias_.getD "")))
        || pyEq choice.value val) then
    .ok ()
  else .error (.invalidFlagChoice val flag.name)

/-- Modelled from the spec: `os.path.exists` is external state; the
model has no existing paths. -/
def pathExists (_p : String) : Bool := false

/-- `_check_flag_type(val, flag)`. -/
def _check_flag_type (val : FlagVal) (flag : FlagDef) : Except PyErr Unit :=
  if flag.type == some "existing-path" then
    if pyTruthy val && !pathExists (pyStrFun val) then
      .error (.invalidFlagValue val flag.name "does not exist")
    else .ok ()
  else .ok ()

/-- Python dynamic `<` for the types the range check can see. -/
def pyLt (a b : FlagVal) : Except PyErr Bool :=
  match numVal a, numVal b with
  | some p, some q => .ok (decide (p.1 * (10 : Int) ^ q.2 < q.1 * (10 : Int) ^ p.2))
  | _, _ =>
    match a, b with
    | .str s, .str t => .ok (decide (s < t))
    | _, _ => .error .typeError

/-- `_check_flag_range(val, flag)`. -/
def _check_flag_range (val : FlagVal) (flag : FlagDef) : Except PyErr Unit :=
  if isNone val then .ok ()
  else
    match (if isNone flag.min then .ok false else pyLt val flag.min) with
    | .error e => .error e
    | .ok true => .error (.invalidFlagValue val flag.name "out of range less than min")
    | .ok false =>
      match (if isNone flag.max then .ok false else pyLt flag.max val) with
      | .error e => .error e
      | .ok true => .error (.invalidFlagValue val flag.name "out of range greater than max")
      | .ok false => .ok ()

/-- `_check_flag_val_(val, flagdef)`: flag functions bypass all checks. -/
def _check_flag_val_ (val : FlagVal) (fd : FlagDef) : Except PyErr Unit := do
  if is_flag_function val then return ()
  _check_flag_choice val fd
  _check_flag_type val fd
  _check_flag_range val fd

/-- The per-part loop of `_check_splittable_flag_val`. -/
def checkSplitParts (parts : List FlagVal) (fd : FlagDef) : Except PyErr Unit :=
  match parts with
  | [] => .ok ()
  | x :: rest => do
    _check_flag_val_ x fd
    checkSplitParts rest fd

/-- `_check_splittable_flag_val(val, flagdef)`. -/
def _check_splittable_flag_val (val : FlagVal) (fd : FlagDef) : Except PyErr Unit :=
  match fd.argSplit with
  | some d =>
    let encoded := _ensure_encoded_flag_val val
    let split_val :=
      (split_encoded_flag_val encoded d).map (fun p => decode_flag_val p)
    checkSplitParts split_val fd
  | Option.none => .ok ()

mutual

/-- `_check_flag_val(val, flagdef)`: lists element-wise, splittable
values part-wise, otherwise the scalar checks. -/
def _check_flag_val (val : FlagVal) (fd : FlagDef) : Except PyErr Unit :=
  match val with
  | .list xs => checkValList xs fd
  | v =>
    if fd.argSplit.isSome && !isNone v then _check_splittable_flag_val v fd
    else _check_flag_val_ v fd

/-- The element-wise list branch of `_check_flag_val`. -/
def checkValList (xs : List FlagVal) (fd : FlagDef) : Except PyErr Unit :=
  match xs with
  | [] => .ok ()
  | x :: rest => do
    _check_flag_val x fd
    checkValList rest fd

end

/-- `_check_flag_vals(vals, flagdefs)`. -/
def _check_flag_vals (vals : AList) (flagdefs : List FlagDef) : Except PyErr Unit :=
  match flagdefs with
  | [] => .ok ()
  | fd :: rest => do
    _check_flag_val (pyGet vals fd.name) fd
    _check_flag_vals vals rest

/-- `_flag_missing(val)`: `None` or `== ""`. -/
def _flag_missing (val : FlagVal) : Bool :=
  isNone val || pyEq val (.str "")

/-- `_missing_flags(vals, flagdefs)`. -/
def _missing_flags (vals : AList) (flagdefs : List FlagDef) : List FlagDef :=
  flagdefs.filter (fun flag => flag.required && _flag_missing (pyGet vals flag.name))

/-- `_check_required_flags(vals, flagdefs)`: one aggregated error listing
every missing required flag. -/
def _check_required_flags (vals : AList) (flagdefs : List FlagDef) :
    Except PyErr Unit :=
  let missing := _missing_flags vals flagdefs
  if missing.isEmpty then .ok ()
  else .error (.missingRequiredFlags (missing.map (fun fd => fd.name)))

/-- `normalize_flag_aliases(flagdefs, flag_vals, force)`. -/
def normalize_flag_aliases (flagdefs : List FlagDef) (flag_vals : AList)
    (force : Bool) : Except PyErr AList :=
  match flagdefs with
  | [] => .ok flag_vals
  | fd :: rest =>
    match fd.alias_ with
    | Option.none => normalize_flag_aliases rest flag_vals force
    | some a =>
      if a == "" || a == fd.name then normalize_flag_aliases rest flag_vals force
      else if alHasKey flag_vals a && alHasKey flag_vals fd.name then
        if !force then .error (.aliasAndNameSpecified fd.name a)
        else normalize_flag_aliases rest flag_vals force
      else
        match alGet flag_vals a with
        | Option.none => normalize_flag_aliases rest flag_vals force
        | some v =>
          normalize_flag_aliases rest (alSet (alRemove flag_vals a) fd.name v) force

/-- `_apply_default_flag_vals(flagdefs, flag_vals)`. -/
def _apply_default_flag_vals (flagdefs : List FlagDef) (flag_vals : AList) : AList :=
  flagdefs.foldl
    (fun vals fd => if alHasKey vals fd.name then vals else alSet vals fd.name fd.default)
    flag_vals

/-- `_apply_choice_flags(choice_flags, user_vals, target_vals)`: implied
values apply only where the original user map reads back `None`. -/
def _apply_choice_flags (choice_flags : AList) (user_vals target_vals : AList) : AList :=
  choice_flags.foldl
    (fun tv kv => if isNone (pyGet user_vals kv.1) then alSet tv kv.1 kv.2 else tv)
    target_vals

/-- `choice.alias or choice.value`. -/
def aliasOrValue (c : FlagChoice) : FlagVal :=
  match c.alias_ with
  | some a => if a == "" then c.value else .str a
  | Option.none => c.value

/-- The inner choice loop of `_apply_choice_vals` for one flag def, with
`flag_val` read once before the loop. -/
def applyChoiceLoop (fd : FlagDef) (flag_val : FlagVal) (user_vals : AList) :
    List FlagChoice → AList → AList
  | [], tv => tv
  | c :: rest, tv =>
    if !(pyEq (aliasOrValue c) flag_val) then
      applyChoiceLoop fd flag_val user_vals rest tv
    else
      let tv1 := if optStrTruthy c.alias_ then alSet tv fd.name c.value else tv
      let tv2 := if !c.flags.isEmpty then _apply_choice_flags c.flags user_vals tv1 else tv1
      applyChoiceLoop fd flag_val user_vals rest tv2

/-- `_apply_choice_vals(flagdefs, user_vals, target_vals)`. -/
def _apply_choice_vals (flagdefs : List FlagDef) (user_vals target_vals : AList) : AList :=
  flagdefs.foldl
    (fun tv fd =>
      if fd.choices.isEmpty then tv
      else
        let flag_val := pyGet tv fd.name
        if isNone flag_val then tv
        else applyChoiceLoop fd flag_val user_vals fd.choices tv)
    target_vals

/-- The operation definition fields used by the embedded functions. -/
structure OpDef where
  flags : List FlagDef := []
  exec_ : Option String := Option.none
  main : Option String := Option.none
  steps : List String := []
deriving Repr

/-- `flag_vals_for_opdef(opdef, user_flag_vals, force)`: the full
resolution pipeline (aliases, defaults, coercion, checks unless forced,
then choice values computed against the original user map). -/
def flag_vals_for_opdef (opdef : OpDef) (user_flag_vals : AList)
    (force : Bool) : Except PyErr AList := do
  let vals0 := user_flag_vals
  let vals1 ← normalize_flag_aliases opdef.flags vals0 force
  let vals2 := _apply_default_flag_vals opdef.flags vals1
  let vals3 ← _apply_coerce_flag_vals opdef.flags force vals2
  if !force then
    _check_no_such_flags vals3 opdef.flags
    _check_flag_vals vals3 opdef.flags
    _check_required_flags vals3 opdef.flags
  return _apply_choice_vals opdef.flags user_flag_vals vals3

/-! ### Command building: exec template selection and expansion -/

/-- `MAIN_EXEC` (the primary-module shorthand template). -/
def MAIN_EXEC : String := "${python_exe} -um guild.op_main ${main_args} -- ${flag_args}"

/-- `STEPS_EXEC` (the step-pipeline shorthand template). -/
def STEPS_EXEC : String := "${guild_python_exe} -um guild.steps_main"

inductive OpDefErr where
  | invalidOpDef (msg : String)
deriving Repr, DecidableEq

/-- `_run_attrs_for_steps(opdef)`. -/
def _run_attrs_for_steps (opdef : OpDef) : List (String × List String) :=
  [("steps", opdef.steps)]

/-- `_opdef_exec_and_run_attrs(opdef)`: explicit `exec` wins (the unused
`main`/`steps` draw a logged warning only), then `main`, then `steps`;
nothing configured raises `InvalidOpDef`. -/
def _opdef_exec_and_run_attrs (opdef : OpDef) :
    Except OpDefErr (String × Option (List (String × List String))) :=
  if optStrTruthy opdef.exec_ then .ok (opdef.exec_.getD "", Option.none)
  else if optStrTruthy opdef.main then .ok (MAIN_EXEC, Option.none)
  else if !opdef.steps.isEmpty then .ok (STEPS_EXEC, some (_run_attrs_for_steps opdef))
  else .error (.invalidOpDef "must define either exec, main, or steps")

/-- `_apply_main_args(main_args, exec_args)`: splice `main_args` in
place of each `${main_args}` token; after a splice the scan resumes
past the spliced tokens (and the index bump of the loop also passes
over the following token unexamined). -/
def _apply_main_args (main_args : List String) : List String → List String
  | [] => []
  | a :: rest =>
    if a == "${main_args}" then
      main_args ++
        match rest with
        | [] => []
        | b :: rest2 => b :: _apply_main_args main_args rest2
    else a :: _apply_main_args main_args rest

/-- `_apply_flag_args_marker(exec_args)`: each `${flag_args}` token
becomes the internal sentinel `__flag_args__`. -/
def _apply_flag_args_marker (exec_args : List String) : List String :=
  exec_args.map (fun v => if v == "${flag_args}" then "__flag_args__" else v)

/-! ### Process supervision: `wait_for_proc` / `_terminate` -/

def DEFAULT_PROC_POLL_INTERVAL : Nat := 5
def DEFAULT_PROC_KILL_DELAY : Nat := 30

/-- Python `x or default` for the optional numeric parameters (0 and
`None` both fall back). -/
def orDefault : Option Nat → Nat → Nat
  | some v, d => if v = 0 then d else v
  | Option.none, d => d

/-- Abstract supervised process.  `natExit = some (n, c)`: exits on its
own with code `c` once `n` time units pass.  `termResponse = some (d, c)`:
exits with code `c` once `d` time units pass after `terminate()`;
`none` means the graceful signal is ignored.  `killResponse = some c`:
after `kill()` the process reports code `c`; `none` means it survives
even the forced kill (stuck). -/
structure SimProc where
  natExit : Option (Nat × Int) := Option.none
  termResponse : Option (Nat × Int) := Option.none
  killResponse : Option Int := Option.none
deriving Repr

/-- `p.poll()` before any signal, `t` time units after the wait began. -/
def SimProc.pollNat (p : SimProc) (t : Nat) : Option Int :=
  match p.natExit with
  | some q => if q.1 ≤ t then some q.2 else Option.none
  | Option.none => Option.none

/-- `p.poll()` after `terminate()` was sent, `t` time units later. -/
def SimProc.pollAfterTerm (p : SimProc) (t : Nat) : Option Int :=
  match p.termResponse with
  | some q => if q.1 ≤ t then some q.2 else Option.none
  | Option.none => Option.none

/-- `p.poll()` after `kill()` (one poll interval after the kill). -/
def SimProc.pollAfterKill (p : SimProc) : Option Int := p.killResponse

inductive ProcErr where
  | processError (msg : String)
deriving Repr, DecidableEq

/-- The poll/sleep loop of `_terminate`
(`while p.poll() is None and time.time() < kill_at: sleep(poll_interval)`),
returning the loop exit time; time starts at 0 when the graceful signal
is sent.  Fuel `kill_delay + 1` suffices for any positive interval. -/
def terminateWaitLoop (p : SimProc) (poll_interval kill_at : Nat) :
    Nat → Nat → Nat
  | 0, t => t
  | fuel + 1, t =>
    if p.pollAfterTerm t = Option.none ∧ t < kill_at then
      terminateWaitLoop p poll_interval kill_at fuel (t + poll_interval)
    else t

/-- `_terminate(p, poll_interval, kill_delay)`: graceful signal, poll up
to `kill_delay`, escalate to `kill()` if still alive, wait one more
interval, then poll once more; any final code outside `{0, -15}`
(including "still running") raises `ProcessError`. -/
def _terminate (p : SimProc) (poll_interval kill_delay : Nat) :
    Except ProcErr Int :=
  let tExit := terminateWaitLoop p poll_interval kill_delay (kill_delay + 1) 0
  let returncode :=
    if (p.pollAfterTerm tExit).isNone then p.pollAfterKill
    else p.pollAfterTerm tExit
  if returncode == some 0 || returncode == some (-15) then
    .ok (returncode.getD 0)
  else .error (.processError "Process did not terminate gracefully")

/-- The pre-budget poll loop of `wait_for_proc`: returns the return code
if the process exits before `stop_at`, else `none` (budget elapsed). -/
def waitProcLoop (p : SimProc) (poll_interval stop_at : Nat) :
    Nat → Nat → Option Int
  | 0, _ => Option.none
  | fuel + 1, t =>
    if t < stop_at then
      match p.pollNat t with
      | some rc => some rc
      | Option.none => waitProcLoop p poll_interval stop_at fuel (t + poll_interval)
    else Option.none

/-- `wait_for_proc(p, stop_after_min, poll_interval, kill_delay)`. -/
def wait_for_proc (p : SimProc) (stop_after_min : Nat)
    (poll_interval kill_delay : Option Nat) : Except ProcErr Int :=
  let pi := orDefault poll_interval DEFAULT_PROC_POLL_INTERVAL
  let kd := orDefault kill_delay DEFAULT_PROC_KILL_DELAY
  let stop_at := stop_after_min * 60
  match waitProcLoop p pi stop_at (stop_at + 1) 0 with
  | some rc => .ok rc
  | Option.none => _terminate p pi kd

/-! ### Run output capture: `RunOutput._gen_tee_run` / `_output_eol` -/

/-- One captured read: producing stream (0 = stdout tee, 1 = stderr tee)
and the raw chunk bytes. -/
structure Chunk where
  stream : Nat
  bytes : List Nat
deriving Repr, DecidableEq

/-- `struct.pack("!QB", t, stream)`: 8 big-endian bytes of the
millisecond timestamp (mod `2 ^ 64`) then the stream tag byte. -/
def packQB (t : Nat) (stream : Nat) : List Nat :=
  let tm := t % 2 ^ 64
  [tm / 2 ^ 56 % 256, tm / 2 ^ 48 % 256, tm / 2 ^ 40 % 256, tm / 2 ^ 32 % 256,
    tm / 2 ^ 24 % 256, tm / 2 ^ 16 % 256, tm / 2 ^ 8 % 256, tm % 256,
    stream % 256]

/-- Capture state: raw log bytes, appended index entries, one pending
line buffer per stream, and the wall clock (modelled as a counter that
advances one millisecond per completed line). -/
structure CaptureState where
  output : List Nat := []
  index : List (List Nat) := []
  line0 : List Nat := []
  line1 : List Nat := []
  clock : Nat := 0
deriving Repr, DecidableEq

/-- `RunOutput._output_eol`: append one packed index entry.  (The output
callback invoked here affects neither the log nor the index.) -/
def _output_eol (st : CaptureState) (stream : Nat) : CaptureState :=
  { st with index := st.index ++ [packQB st.clock stream], clock := st.clock + 1 }

def getLine (st : CaptureState) (stream : Nat) : List Nat :=
  if stream = 0 then st.line0 else st.line1

def setLine (st : CaptureState) (stream : Nat) (l : List Nat) : CaptureState :=
  if stream = 0 then { st with line0 := l } else { st with line1 := l }

/-- The byte scan of `_gen_tee_run`: bytes below 9 are dropped,
otherwise the byte joins the pending line, and a line feed (10) closes
the line with one index record. -/
def processByte (stream : Nat) (st : CaptureState) (b : Nat) : CaptureState :=
  if b < 9 then st
  else
    let st1 := setLine st stream (getLine st stream ++ [b])
    if b = 10 then setLine (_output_eol st1 stream) stream []
    else st1

/-- One locked iteration of the reader loop: mirror write elided (it
does not touch log or index), raw chunk appended to the log, then the
byte scan. -/
def processChunk (st : CaptureState) (stream : Nat) (buf : List Nat) : CaptureState :=
  let st1 := { st with output := st.output ++ buf }
  buf.foldl (processByte stream) st1

/-- Interleaved chunk arrivals across both reader loops (the shared lock
serializes chunks). -/
def processTrace (st : CaptureState) : List Chunk → CaptureState
  | [] => st
  | c :: rest => processTrace (processChunk st c.stream c.bytes) rest

/-- End-of-stream flush of `_gen_tee_run`: a non-empty pending line gets
a final (unterminated) record. -/
def flushStream (st : CaptureState) (stream : Nat) : CaptureState :=
  if getLine st stream ≠ [] then _output_eol st stream else st

/-- A whole capture: process the interleaved chunks, then each reader
hits end-of-stream. -/
def runCapture (chunks : List Chunk) : CaptureState :=
  let st := processTrace {} chunks
  flushStream (flushStream st 0) 1

/-- Number of line feeds in a chunk. -/
def countLF (bytes : List Nat) : Nat := bytes.countP (fun b => b == 10)

/-- Reference index: one record per line feed, in arrival order, tagged
with the producing stream. -/
def indexSpec (clock : Nat) : List Chunk → List (List Nat)
  | [] => []
  | c :: rest =>
    (List.range (countLF c.bytes)).map (fun k => packQB (clock + k) c.stream)
      ++ indexSpec (clock + countLF c.bytes) rest

/-! ### RunOutput state machine: `open` / `wait` / `close` -/

/-- The fields of a spawned process handle that `RunOutput` reads:
whether stdout is a readable pipe and whether a stderr pipe exists. -/
structure ProcHandle where
  stdoutPipe : Bool
  hasStderr : Bool
deriving Repr, DecidableEq

inductive RunOutputErr where
  | runtimeError (msg : String)
  | assertionError
deriving Repr, DecidableEq

/-- `RunOutput` instance state: the `_open` flag, the held process, the
two files, and the tee threads (`some alive?`). -/
structure RunOutputState where
  openFlag : Bool := false
  proc : Option ProcHandle := Option.none
  output : Bool := false
  index : Bool := false
  outTee : Option Bool := Option.none
  errTee : Option Bool := Option.none
deriving Repr, DecidableEq

/-- `RunOutput._assert_closed`. -/
def RunOutput_assert_closed (s : RunOutputState) : Except RunOutputErr Unit :=
  if s.openFlag then .error (.runtimeError "already open")
  else if s.proc.isSome || s.output || s.index
      || s.outTee.isSome || s.errTee.isSome then .error .assertionError
  else .ok ()

/-- `RunOutput.open(proc)`: requires a closed instance and a stdout
pipe; opens both files and starts one tee thread per stream. -/
def RunOutput_open (s : RunOutputState) (p : ProcHandle) :
    Except RunOutputErr RunOutputState := do
  RunOutput_assert_closed s
  if !p.stdoutPipe then throw (.runtimeError "proc stdout must be a PIPE")
  return { s with
    proc := some p,
    output := true,
    index := true,
    outTee := some true,
    errTee := if p.hasStderr then some true else Option.none,
    openFlag := true }

/-- `RunOutput._assert_open`. -/
def RunOutput_assert_open (s : RunOutputState) : Except RunOutputErr Unit :=
  if !s.openFlag then .error (.runtimeError "not open")
  else
    match s.proc with
    | Option.none => .error .assertionError
    | some p =>
      if s.output && s.index && s.outTee.isSome
          && (!p.hasStderr || s.errTee.isSome) then .ok ()
      else .error .assertionError

/-- `RunOutput.wait()`: joins the tee threads; they exit when the
underlying pipes close, after which neither thread is alive. -/
def RunOutput_wait (s : RunOutputState) : Except RunOutputErr RunOutputState := do
  RunOutput_assert_open s
  return { s with
    outTee := s.outTee.map (fun _ => false),
    errTee := s.errTee.map (fun _ => false) }

/-- `RunOutput.close()` → `_close()`: in the single-threaded model the
lock acquisition succeeds; `_close` asserts the instance open, closes
the files and callback, asserts the tee threads are finished, and
resets every field (the instance ends closed). -/
def RunOutput_close (s : RunOutputState) : Except RunOutputErr RunOutputState := do
  RunOutput_assert_open s
  if s.outTee == some true || s.errTee == some true then throw .assertionError
  return { s with
    proc := Option.none,
    output := false,
    index := false,
    outTee := Option.none,
    errTee := Option.none,
    openFlag := false }

/-! ### Claim theorems -/

/-- C4: command building selects the execution template by strict
priority explicit `exec` > `main` shorthand > `steps` shorthand; an
operation definition declaring none of the three fails with
`InvalidOpDef` (the selection takes no force parameter, so force mode
cannot suppress it); and the steps case is the only one returning
non-null run attributes, namely the step list under the key "steps". -/
theorem C4_exec_template_priority (od : OpDef) :
    (optStrTruthy od.exec_ = true →
      _opdef_exec_and_run_attrs od = .ok (od.exec_.getD "", Option.none))
    ∧ (optStrTruthy od.exec_ = false → optStrTruthy od.main = true →
      _opdef_exec_and_run_attrs od = .ok (MAIN_EXEC, Option.none))
    ∧ (optStrTruthy od.exec_ = false → optStrTruthy od.main = false →
      od.steps ≠ [] →
      _opdef_exec_and_run_attrs od = .ok (STEPS_EXEC, some [("steps", od.steps)]))
    ∧ (optStrTruthy od.exec_ = false → optStrTruthy od.main = false →
      od.steps = [] →
      _opdef_exec_and_run_attrs od
        = .error (.invalidOpDef "must define either exec, main, or steps"))
    ∧ (∀ cmd attrs, _opdef_exec_and_run_attrs od = .ok (cmd, some attrs) →
      cmd = STEPS_EXEC ∧ attrs = [("steps", od.steps)]) := by
  refine ⟨?_, ?_, ?_, ?_, ?_⟩
  · intro h1
    rw [_opdef_exec_and_run_attrs, if_pos h1]
  · intro h1 h2
    rw [_opdef_exec_and_run_attrs, if_neg (by simp [h1]), if_pos h2]
  · intro h1 h2 h3
    rw [_opdef_exec_and_run_attrs, if_neg (by simp [h1]), if_neg (by simp [h2]),
      if_pos (by simp [List.isEmpty_iff, h3]), _run_attrs_for_steps]
  · intro h1 h2 h3
    rw [_opdef_exec_and_run_attrs, if_neg (by simp [h1]), if_neg (by simp [h2]),
      if_neg (by simp [List.isEmpty_iff, h3])]
  · intro cmd attrs h
    rw [_opdef_exec_and_run_attrs] at h
    by_cases h1 : optStrTruthy od.exec_
    · rw [if_pos h1] at h
      exact absurd (congrArg (fun x => match x with
        | Except.ok (_, some _) => True
        | _ => False) h) (by simp)
    · rw [if_neg h1] at h
      by_cases h2 : optStrTruthy od.main
      · rw [if_pos h2] at h
        exact absurd (congrArg (fun x => match x with
          | Except.ok (_, some _) => True
          | _ => False) h) (by simp)
      · rw [if_neg h2] at h
        by_cases h3 : od.steps.isEmpty
        · rw [if_neg (by simp [h3])] at h
          exact absurd h (by simp)
        · rw [if_pos (by simp [h3])] at h
          simp only [Except.ok.injEq, Prod.mk.injEq] at h
          obtain ⟨hcmd, hattrs⟩ := h
          refine ⟨hcmd.symm, ?_⟩
          rw [_run_attrs_for_steps] at hattrs
          exact (Option.some.injEq _ _ ▸ hattrs).symm

/-- C4 witness: a steps-only opdef selects the step-runner template and
returns the step list as the only run attribute. -/
theorem C4_exec_template_priority_witness :
    _opdef_exec_and_run_attrs { steps := ["train", "eval"] }
      = .ok (STEPS_EXEC, some [("steps", ["train", "eval"])]) :=
  (C4_exec_template_priority { steps := ["train", "eval"] }).2.2.1 rfl rfl (by simp)

/-- C8: template expansion splices the split main-module tokens in
place of the `main_args` placeholder (surrounding tokens preserved,
spliced tokens never re-scanned), replaces the `flag_args` placeholder
with the internal sentinel `__flag_args__`, and the explicit concrete
template of the spec expands exactly as claimed. -/
theorem C8_template_expansion :
    (_apply_flag_args_marker
        (_apply_main_args ["train.py"]
          ["python", "-run", "${main_args}", "--", "${flag_args}"])
      = ["python", "-run", "train.py", "--", "__flag_args__"])
    ∧ (∀ m pre post, pre.all (fun t => t ≠ "${main_args}") = true →
      _apply_main_args m (pre ++ "${main_args}" :: post)
        = pre ++ m ++
            match post with
            | [] => []
            | b :: rest => b :: _apply_main_args m rest)
    ∧ (∀ m l, l.all (fun t => t ≠ "${main_args}") = true →
      _apply_main_args m l = l)
    ∧ (∀ l, "${flag_args}" ∉ _apply_flag_args_marker l) := by
  refine ⟨by rfl, ?_, ?_, ?_⟩
  · intro m pre post hpre
    induction pre with
    | nil =>
      rw [List.nil_append, _apply_main_args.eq_def]
      simp
    | cons a pre ih =>
      simp only [List.all_cons, Bool.and_eq_true, decide_eq_true_eq] at hpre
      rw [List.cons_append, _apply_main_args.eq_def]
      simp only [hpre.1, if_neg, beq_iff_eq, if_false]
      rw [ih (by simpa using hpre.2)]
      simp [hpre.1]
  · intro m l hl
    induction l with
    | nil => rfl
    | cons a l ih =>
      simp only [List.all_cons, Bool.and_eq_true, decide_eq_true_eq] at hl
      rw [_apply_main_args.eq_def]
      simp only [beq_iff_eq, hl.1, if_false]
      rw [ih (by simpa using hl.2)]
  · intro l hmem
    rw [_apply_flag_args_marker] at hmem
    obtain ⟨v, _, hv⟩ := List.mem_map.mp hmem
    by_cases hc : v == "${flag_args}"
    · rw [if_pos hc] at hv
      exact absurd hv (by decide)
    · rw [if_neg hc] at hv
      subst hv
      simp at hc

/-- C8 witness: the general splice property at a concrete input (the
token after a splice passes through, later placeholders still expand). -/
theorem C8_template_expansion_witness :
    _apply_main_args ["a", "b"] (["x"] ++ "${main_args}" :: ["y", "${main_args}"])
      = ["x", "a", "b", "y", "a", "b"] := by
  rw [C8_template_expansion.2.1 ["a", "b"] ["x"] ["y", "${main_args}"] (by decide)]
  rfl

/-- C10: with choices declared and allow-other unset, choice-membership
validation never raises for a falsy value (None, False, 0, 0.0, ""),
even one not among the choices; an error can only arise from a truthy
value, and a truthy value matching no choice (by alias or value) does
raise InvalidFlagChoice. -/
theorem C10_falsy_choice_exemption (val : FlagVal) (flag : FlagDef)
    (hao : flag.allowOther = false) (hch : flag.choices.isEmpty = false) :
    (pyTruthy val = false → _check_flag_choice val flag = .ok ())
    ∧ (∀ e, _check_flag_choice val flag = .error e → pyTruthy val = true)
    ∧ (pyTruthy val = true →
      (flag.choices.any (fun choice =>
        (optStrTruthy choice.alias_ && pyEq val (.str (choice.alias_.getD "")))
          || pyEq choice.value val)) = false →
      _check_flag_choice val flag = .error (.invalidFlagChoice val flag.name)) := by
  refine ⟨?_, ?_, ?_⟩
  · intro hfalsy
    rw [_check_flag_choice, if_pos (by simp [hfalsy])]
  · intro e herr
    by_cases ht : pyTruthy val
    · exact ht
    · rw [_check_flag_choice, if_pos (by simp [ht])] at herr
      exact absurd herr (by simp)
  · intro ht hnomatch
    rw [_check_flag_choice, if_neg (by simp [ht, hao, hch]), if_neg (by simp [hnomatch])]

/-- C10 witness: the falsy value 0 passes the choice check although it
is not among the declared choices. -/
theorem C10_falsy_choice_exemption_witness :
    _check_flag_choice (.int 0)
      { name := "f", choices := [{ value := .str "red" }], allowOther := false }
      = .ok () :=
  (C10_falsy_choice_exemption (.int 0)
    { name := "f", choices := [{ value := .str "red" }], allowOther := false }
    rfl rfl).1 rfl

/-- C6 counterexample: the float 2.0 has no fractional part (it equals
the integer 2 under Python `==`), yet coercion to type `int` rejects
it, so "rejects exactly those floating-point values that have a
fractional representation" fails as stated. -/
theorem C6_counterexample :
    _coerce_typed_flag_value (.float 2 0) { name := "x", type := some "int" }
        = .error (.valueError "invalid value for type int")
      ∧ pyEq (.float 2 0) (.int 2) = true := by
  constructor
  · rfl
  · simp [pyEq, numVal, decEqNum]

/-- C6 amended: coercion to type `int` rejects every float value,
integral-valued or not (non-float values go through Python `int()`
instead); coercion to type `number` returns any int, float, or bool
unchanged. -/
theorem C6_int_rejects_floats (fd : FlagDef) (v : FlagVal) :
    (fd.type = some "int" → isFloat v = true →
      _coerce_typed_flag_value v fd = .error (.valueError "invalid value for type int"))
    ∧ (fd.type = some "int" → isFloat v = false →
      _coerce_typed_flag_value v fd = _try_coerce_flag_val v [pyIntFun] fd)
    ∧ (fd.type = some "number" → isFloatOrInt v = true →
      _coerce_typed_flag_value v fd = .ok v) := by
  refine ⟨?_, ?_, ?_⟩
  · intro htype hfloat
    rw [_coerce_typed_flag_value.eq_def, htype]
    simp [hfloat]
  · intro htype hfloat
    rw [_coerce_typed_flag_value.eq_def, htype]
    simp [hfloat]
  · intro htype hnum
    rw [_coerce_typed_flag_value.eq_def, htype]
    simp [hnum]

/-- C6 witness: 2.5 rejected by `int`, 2.5 passed through by `number`. -/
theorem C6_int_rejects_floats_witness :
    _coerce_typed_flag_value (.float 25 1) { name := "x", type := some "int" }
        = .error (.valueError "invalid value for type int")
      ∧ _coerce_typed_flag_value (.float 25 1) { name := "y", type := some "number" }
        = .ok (.float 25 1) :=
  ⟨(C6_int_rejects_floats { name := "x", type := some "int" } (.float 25 1)).1 rfl rfl,
   (C6_int_rejects_floats { name := "y", type := some "number" } (.float 25 1)).2.2 rfl rfl⟩

/-- C1 counterexample: a process that ignores the graceful signal and
then dies from the forced kill with the usual SIGKILL code (-9) makes
`_terminate` — and `wait_for_proc` after the budget elapses — raise
`ProcessError`, although the process did exit after the kill; so
"returns successfully once the process exits after the kill" and
"ProcessError only in the STUCK branch" fail as stated. -/
theorem C1_counterexample :
    _terminate { termResponse := Option.none, killResponse := some (-9) } 1 3
        = .error (.processError "Process did not terminate gracefully")
      ∧ SimProc.pollAfterKill
          { termResponse := Option.none, killResponse := some (-9) } = some (-9)
      ∧ wait_for_proc { termResponse := Option.none, killResponse := some (-9) }
          1 (some 1) (some 3)
        = .error (.processError "Process did not terminate gracefully") :=
  ⟨rfl, rfl, rfl⟩

/-- C1 amended: after the budget elapses, escalation returns
successfully exactly when the final poll yields return code 0 or -15
(exit by the graceful signal); any other final outcome — a different
exit code after the forced kill, or still running after it (STUCK) —
raises `ProcessError`. -/
theorem C1_escalation_outcomes (p : SimProc) (pi kd : Nat) :
    (∀ rc, _terminate p pi kd = .ok rc → rc = 0 ∨ rc = -15)
    ∧ (∀ c, p.termResponse = Option.none → p.killResponse = some c →
        c ≠ 0 → c ≠ -15 →
        _terminate p pi kd
          = .error (.processError "Process did not terminate gracefully"))
    ∧ (p.termResponse = Option.none → p.killResponse = Option.none →
        _terminate p pi kd
          = .error (.processError "Process did not terminate gracefully"))
    ∧ (p.termResponse = some (0, -15) → _terminate p pi kd = .ok (-15)) := by
  refine ⟨?_, ?_, ?_, ?_⟩
  · intro rc h
    rw [_terminate] at h
    set t := terminateWaitLoop p pi kd (kd + 1) 0 with ht
    set returncode :=
      (if (p.pollAfterTerm t).isNone then p.pollAfterKill else p.pollAfterTerm t)
      with hrc
    by_cases hb : (returncode == some 0 || returncode == some (-15)) = true
    · rw [if_pos hb] at h
      simp only [Except.ok.injEq] at h
      rcases Bool.or_eq_true _ _ |>.mp hb with h0 | h0
      · left
        have : returncode = some 0 := by simpa using h0
        rw [← h, this]
        rfl
      · right
        have : returncode = some (-15) := by simpa using h0
        rw [← h, this]
        rfl
    · rw [if_neg hb] at h
      exact absurd h (by simp)
  · intro c hterm hkill hc0 hc15
    rw [_terminate]
    have hpt : ∀ t, p.pollAfterTerm t = Option.none := by
      intro t
      rw [SimProc.pollAfterTerm, hterm]
    rw [hpt]
    simp only [Option.isNone_none, if_true, SimProc.pollAfterKill, hkill]
    rw [if_neg (by simp [hc0, hc15])]
  · intro hterm hkill
    rw [_terminate]
    have hpt : ∀ t, p.pollAfterTerm t = Option.none := by
      intro t
      rw [SimProc.pollAfterTerm, hterm]
    rw [hpt]
    simp only [Option.isNone_none, if_true, SimProc.pollAfterKill, hkill]
    rfl
  · intro hterm
    have h0 : terminateWaitLoop p pi kd (kd + 1) 0 = 0 := by
      rw [terminateWaitLoop]
      rw [if_neg]
      intro hand
      have := hand.1
      simp [SimProc.pollAfterTerm, hterm] at this
    rw [_terminate, h0]
    simp [SimProc.pollAfterTerm, hterm]

/-- C1 amended witness: graceful-ignoring process killed with code -9
raises; immediate graceful exit with -15 succeeds. -/
theorem C1_escalation_outcomes_witness :
    _terminate { termResponse := Option.none, killResponse := some (-9) } 2 5
        = .error (.processError "Process did not terminate gracefully")
      ∧ _terminate { termResponse := some (0, -15) } 2 5 = .ok (-15) :=
  ⟨(C1_escalation_outcomes { termResponse := Option.none, killResponse := some (-9) }
      2 5).2.1 (-9) rfl rfl (by decide) (by decide),
   (C1_escalation_outcomes { termResponse := some (0, -15) } 2 5).2.2.2 rfl⟩

/-- C5 counterexample: a fresh instance can be opened, waited, closed,
and then opened again successfully — so "calling open on an instance
that has ever been opened fails" and "no sequence of open/wait/close
calls can open the same instance twice" fail as stated. -/
theorem C5_counterexample :
    ∃ s1 s2 s3 s4,
      RunOutput_open ({} : RunOutputState) ⟨true, false⟩ = .ok s1
      ∧ RunOutput_wait s1 = .ok s2
      ∧ RunOutput_close s2 = .ok s3
      ∧ RunOutput_open s3 ⟨true, false⟩ = .ok s4 :=
  ⟨_, _, _, _, rfl, rfl, rfl, rfl⟩

/-- C5 amended: `open` fails with "already open" exactly while the
instance is open; on a fresh instance `open` fails when stdout is not a
readable pipe; `wait`/`close` on a closed instance fail with "not
open"; and `close` returns the instance to the closed state from which
`open` succeeds again (the instance is reusable, not single-use). -/
theorem C5_runoutput_states (s : RunOutputState) (p : ProcHandle) :
    (s.openFlag = true → RunOutput_open s p = .error (.runtimeError "already open"))
    ∧ (p.stdoutPipe = false →
      RunOutput_open ({} : RunOutputState) p
        = .error (.runtimeError "proc stdout must be a PIPE"))
    ∧ (s.openFlag = false → RunOutput_wait s = .error (.runtimeError "not open"))
    ∧ (s.openFlag = false → RunOutput_close s = .error (.runtimeError "not open"))
    ∧ (p.stdoutPipe = true → ∃ s3,
      (do
        let s1 ← RunOutput_open ({} : RunOutputState) p
        let s2 ← RunOutput_wait s1
        RunOutput_close s2) = Except.ok s3
      ∧ s3.openFlag = false ∧ (RunOutput_open s3 p).isOk = true) := by
  obtain ⟨sp, he⟩ := p
  refine ⟨?_, ?_, ?_, ?_, ?_⟩
  · intro hopen
    simp [RunOutput_open, RunOutput_assert_closed, hopen, Bind.bind, Except.bind]
  · intro hsp
    subst hsp
    simp [RunOutput_open, RunOutput_assert_closed, Bind.bind, Except.bind, throw,
      throwThe, MonadExceptOf.throw]
  · intro hclosed
    simp [RunOutput_wait, RunOutput_assert_open, hclosed, Bind.bind, Except.bind]
  · intro hclosed
    simp [RunOutput_close, RunOutput_assert_open, hclosed, Bind.bind, Except.bind]
  · intro hsp
    subst hsp
    cases he with
    | false => exact ⟨{}, rfl, rfl, rfl⟩
    | true => exact ⟨{}, rfl, rfl, rfl⟩

/-- C5 amended witness: on a fresh instance with a non-pipe stdout,
open fails; the open-wait-close-open cycle succeeds with a pipe. -/
theorem C5_runoutput_states_witness :
    RunOutput_open ({} : RunOutputState) ⟨false, false⟩
        = .error (.runtimeError "proc stdout must be a PIPE")
      ∧ RunOutput_wait ({} : RunOutputState) = .error (.runtimeError "not open") :=
  ⟨(C5_runoutput_states {} ⟨false, false⟩).2.1 rfl,
   (C5_runoutput_states {} ⟨false, false⟩).2.2.1 rfl⟩

/-- Applying choice flags never touches a name outside the implied map. -/
theorem apply_choice_flags_untouched (cf user : AList) (n : String)
    (h : n ∉ cf.map Prod.fst) :
    ∀ tv, alGet (_apply_choice_flags cf user tv) n = alGet tv n := by
  induction cf with
  | nil => intro tv; rfl
  | cons kv rest ih =>
    intro tv
    simp only [List.map_cons, List.mem_cons] at h
    push_neg at h
    rw [_apply_choice_flags, List.foldl_cons]
    have step : ∀ tv2 : AList,
        alGet (if isNone (pyGet user kv.1) then alSet tv2 kv.1 kv.2 else tv2) n
          = alGet tv2 n := by
      intro tv2
      by_cases hc : isNone (pyGet user kv.1)
      · rw [if_pos hc, alGet_alSet_ne _ _ _ _ (fun he => h.1 he.symm)]
      · rw [if_neg hc]
    have := ih h.2 (if isNone (pyGet user kv.1) then alSet tv kv.1 kv.2 else tv)
    rw [_apply_choice_flags] at this
    rw [this, step]

/-- C7 counterexample: (a) the caller explicitly supplies `A = None`
(the key is present in the user map) and the implied value from `B`'s
matching choice overwrites it; (b) a choice that carries an alias is
matched only against the alias, so a resolved value equal to the
choice's *value* does not trigger its implied values.  Both contradict
the claim as stated. -/
theorem C7_counterexample :
    _apply_choice_vals
        [{ name := "B", choices := [{ value := .str "c", flags := [("A", .int 5)] }] }]
        [("A", FlagVal.none), ("B", .str "c")]
        [("A", FlagVal.none), ("B", .str "c")]
      = [("A", .int 5), ("B", .str "c")]
    ∧ alHasKey [("A", FlagVal.none), ("B", FlagVal.str "c")] "A" = true
    ∧ _apply_choice_vals
        [{ name := "C",
           choices := [{ value := .str "v", alias_ := some "a", flags := [("D", .int 7)] }] }]
        [("C", .str "v")]
        [("C", .str "v"), ("D", FlagVal.none)]
      = [("C", .str "v"), ("D", FlagVal.none)] := by
  refine ⟨?_, rfl, ?_⟩
  · simp [_apply_choice_vals, applyChoiceLoop, aliasOrValue, _apply_choice_flags,
      pyEq, numVal, pyGet, alGet, alSet, isNone, optStrTruthy]
  · simp [_apply_choice_vals, applyChoiceLoop, aliasOrValue, _apply_choice_flags,
      pyEq, numVal, pyGet, alGet, alSet, isNone, optStrTruthy]

/-- C7 amended: matching is by the choice's alias when it has one,
otherwise by its value; on a match the implied values are applied to
every parameter whose entry in the caller's original map is absent or
null, and an entry the caller supplied with a non-null value is never
overwritten. -/
theorem C7_choice_implied_vals :
    (∀ (cf user tv : AList) (n : String) (v : FlagVal),
      alGet user n = some v → isNone v = false →
      alGet (_apply_choice_flags cf user tv) n = alGet tv n)
    ∧ (∀ (cf user tv : AList) (n : String) (v : FlagVal),
      (cf.map Prod.fst).Nodup → (n, v) ∈ cf → isNone (pyGet user n) = true →
      alGet (_apply_choice_flags cf user tv) n = some v)
    ∧ (∀ (fd : FlagDef) (val : FlagVal) (user tv : AList) (c : FlagChoice)
        (rest : List FlagChoice) (a : String),
      c.alias_ = some a → a ≠ "" → pyEq (.str a) val = false →
      applyChoiceLoop fd val user (c :: rest) tv
        = applyChoiceLoop fd val user rest tv) := by
  refine ⟨?_, ?_, ?_⟩
  · intro cf user tv n v huser hv
    induction cf generalizing tv with
    | nil => rfl
    | cons kv rest ih =>
      rw [_apply_choice_flags, List.foldl_cons]
      have step : (if isNone (pyGet user kv.1) then alSet tv kv.1 kv.2 else tv) =
          (if isNone (pyGet user kv.1) then alSet tv kv.1 kv.2 else tv) := rfl
      by_cases hk : kv.1 = n
      · subst hk
        have : pyGet user kv.1 = v := by rw [pyGet, huser]; rfl
        rw [this] at step ⊢
        rw [if_neg (by simp [hv])]
        have h2 := ih tv
        rw [_apply_choice_flags] at h2
        exact h2
      · by_cases hc : isNone (pyGet user kv.1)
        · rw [if_pos hc]
          have h2 := ih (alSet tv kv.1 kv.2)
          rw [_apply_choice_flags] at h2
          rw [h2, alGet_alSet_ne _ _ _ _ hk]
        · rw [if_neg hc]
          have h2 := ih tv
          rw [_apply_choice_flags] at h2
          exact h2
  · intro cf user tv n v hnd hmem huser
    induction cf generalizing tv with
    | nil => exact absurd hmem (List.not_mem_nil _)
    | cons kv rest ih =>
      simp only [List.map_cons, List.nodup_cons] at hnd
      rw [_apply_choice_flags, List.foldl_cons]
      rcases List.mem_cons.mp hmem with heq | hmem2
      · subst heq
        rw [if_pos huser]
        have huntouched := apply_choice_flags_untouched rest user n hnd.1 (alSet tv n v)
        rw [_apply_choice_flags] at huntouched
        rw [huntouched, alGet_alSet_self]
      · have h2 := ih (if isNone (pyGet user kv.1) then alSet tv kv.1 kv.2 else tv)
          hnd.2 hmem2
        rw [_apply_choice_flags] at h2
        exact h2
  · intro fd val user tv c rest a ha hane hne
    rw [applyChoiceLoop]
    have : aliasOrValue c = .str a := by
      rw [aliasOrValue, ha]
      simp [hane]
    rw [this, if_pos (by simp [hne])]

/-- C7 amended witness: the implied value lands on a parameter the
caller never mentioned. -/
theorem C7_choice_implied_vals_witness :
    alGet (_apply_choice_flags [("A", .int 5)] [("B", .str "c")] [("A", FlagVal.none)]) "A"
      = some (.int 5) :=
  C7_choice_implied_vals.2.1 [("A", .int 5)] [("B", .str "c")] [("A", FlagVal.none)]
    "A" (.int 5) (by simp) (by simp) rfl

theorem setLine_index (st : CaptureState) (s : Nat) (l : List Nat) :
    (setLine st s l).index = st.index := by
  rw [setLine]
  split <;> rfl

theorem setLine_clock (st : CaptureState) (s : Nat) (l : List Nat) :
    (setLine st s l).clock = st.clock := by
  rw [setLine]
  split <;> rfl

theorem setLine_output (st : CaptureState) (s : Nat) (l : List Nat) :
    (setLine st s l).output = st.output := by
  rw [setLine]
  split <;> rfl

theorem processByte_state (s : Nat) (st : CaptureState) (b : Nat) :
    (processByte s st b).index
        = st.index ++ (if b = 10 then [packQB st.clock s] else [])
    ∧ (processByte s st b).clock = st.clock + (if b = 10 then 1 else 0)
    ∧ (processByte s st b).output = st.output := by
  by_cases hlt : b < 9
  · have hb : ¬ b = 10 := by omega
    simp [processByte, hlt, hb]
  · by_cases hb : b = 10
    · subst hb
      simp [processByte, hlt, _output_eol, setLine_index, setLine_clock,
        setLine_output]
    · simp [processByte, hlt, hb, setLine_index, setLine_clock, setLine_output]

theorem range_packQB_shift (n clock s : Nat) :
    (List.range (n + 1)).map (fun k => packQB (clock + k) s)
      = packQB clock s :: (List.range n).map (fun k => packQB (clock + 1 + k) s) := by
  rw [List.range_succ_eq_map, List.map_cons, List.map_map]
  congr 1
  apply List.map_congr_left
  intro k _
  simp only [Function.comp_apply]
  congr 1
  omega

theorem foldl_processByte (s : Nat) (buf : List Nat) :
    ∀ st : CaptureState,
      ((buf.foldl (processByte s) st).index
          = st.index ++ (List.range (countLF buf)).map (fun k => packQB (st.clock + k) s))
      ∧ ((buf.foldl (processByte s) st).clock = st.clock + countLF buf)
      ∧ ((buf.foldl (processByte s) st).output = st.output) := by
  induction buf with
  | nil =>
    intro st
    simp [countLF]
  | cons b buf ih =>
    intro st
    rw [List.foldl_cons]
    obtain ⟨hi, hc, ho⟩ := ih (processByte s st b)
    obtain ⟨hbi, hbc, hbo⟩ := processByte_state s st b
    have hcount : countLF (b :: buf)
        = countLF buf + (if b = 10 then 1 else 0) := by
      rw [countLF, countLF, List.countP_cons]
      simp
    by_cases hb : b = 10
    · refine ⟨?_, ?_, ?_⟩
      · rw [hi, hbi, hbc, hcount]
        repeat rw [if_pos hb]
        rw [range_packQB_shift]
        simp [List.append_assoc]
      · rw [hc, hbc, hcount]
        repeat rw [if_pos hb]
        omega
      · rw [ho, hbo]
    · refine ⟨?_, ?_, ?_⟩
      · rw [hi, hbi, hbc, hcount]
        repeat rw [if_neg hb]
        simp
      · rw [hc, hbc, hcount]
        repeat rw [if_neg hb]
        omega
      · rw [ho, hbo]

theorem processChunk_state (st : CaptureState) (s : Nat) (buf : List Nat) :
    (processChunk st s buf).index
        = st.index ++ (List.range (countLF buf)).map (fun k => packQB (st.clock + k) s)
    ∧ (processChunk st s buf).clock = st.clock + countLF buf
    ∧ (processChunk st s buf).output = st.output ++ buf := by
  rw [processChunk]
  obtain ⟨hi, hc, ho⟩ := foldl_processByte s buf { st with output := st.output ++ buf }
  exact ⟨hi, hc, ho⟩

theorem processTrace_state (chunks : List Chunk) :
    ∀ st : CaptureState,
      (processTrace st chunks).index = st.index ++ indexSpec st.clock chunks
      ∧ (processTrace st chunks).clock
          = st.clock + (chunks.map (fun c => countLF c.bytes)).sum := by
  induction chunks with
  | nil =>
    intro st
    simp [processTrace, indexSpec]
  | cons c rest ih =>
    intro st
    rw [processTrace]
    obtain ⟨hi, hc⟩ := ih (processChunk st c.stream c.bytes)
    obtain ⟨hci, hcc, _⟩ := processChunk_state st c.stream c.bytes
    refine ⟨?_, ?_⟩
    · rw [hi, hci, hcc, indexSpec]
      simp [List.append_assoc]
    · rw [hc, hcc]
      simp [List.map_cons, List.sum_cons]
      omega

theorem indexSpec_length (chunks : List Chunk) :
    ∀ clock, (indexSpec clock chunks).length
      = (chunks.map (fun c => countLF c.bytes)).sum := by
  induction chunks with
  | nil => intro clock; rfl
  | cons c rest ih =>
    intro clock
    rw [indexSpec]
    simp [ih]

theorem packQB_length (t s : Nat) : (packQB t s).length = 9 := rfl

theorem indexSpec_mem_length (chunks : List Chunk) :
    ∀ clock e, e ∈ indexSpec clock chunks → e.length = 9 := by
  induction chunks with
  | nil =>
    intro clock e he
    exact absurd he (List.not_mem_nil e)
  | cons c rest ih =>
    intro clock e he
    rw [indexSpec] at he
    rcases List.mem_append.mp he with he | he
    · obtain ⟨k, _, hk⟩ := List.mem_map.mp he
      rw [← hk, packQB_length]
    · exact ih _ e he

/-- C3: for captured chunks that end in line-feed-terminated lines (both
pending buffers empty at end of stream), the capture appends exactly
one index record per line feed, in arrival order: the index equals the
reference `indexSpec`, its length is the total line-feed count over
both streams, every record is exactly 9 bytes, and each record ends in
the producing stream's tag byte after the 8-byte big-endian timestamp. -/
theorem C3_index_records (chunks : List Chunk)
    (h0 : (processTrace {} chunks).line0 = [])
    (h1 : (processTrace {} chunks).line1 = []) :
    (runCapture chunks).index = indexSpec 0 chunks
    ∧ (runCapture chunks).index.length
        = (chunks.map (fun c => countLF c.bytes)).sum
    ∧ (∀ e ∈ (runCapture chunks).index, e.length = 9)
    ∧ (∀ t s, s < 256 → (packQB t s).getLast? = some s) := by
  have hf0 : flushStream (processTrace {} chunks) 0 = processTrace {} chunks := by
    rw [flushStream, if_neg (by simp [getLine, h0])]
  have hf1 : flushStream (processTrace {} chunks) 1 = processTrace {} chunks := by
    rw [flushStream, if_neg (by simp [getLine, h1])]
  have hflush : runCapture chunks = processTrace {} chunks := by
    simp only [runCapture]
    rw [hf0, hf1]
  obtain ⟨hi, _⟩ := processTrace_state chunks {}
  have hidx : (runCapture chunks).index = indexSpec 0 chunks := by
    rw [hflush, hi]
    rfl
  refine ⟨hidx, ?_, ?_, ?_⟩
  · rw [hidx, indexSpec_length]
  · intro e he
    rw [hidx] at he
    exact indexSpec_mem_length chunks 0 e he
  · intro t s hs
    have hlast : (packQB t s).getLast? = some (s % 256) := rfl
    rw [hlast, Nat.mod_eq_of_lt hs]

/-- C3 witness: scenario C of the spec — `hello\n` on the primary
stream then `world\n` on the secondary gives exactly two records, 9
bytes each, tagged 0 then 1 in arrival order. -/
theorem C3_index_records_witness :
    (runCapture [⟨0, [104, 101, 108, 108, 111, 10]⟩,
        ⟨1, [119, 111, 114, 108, 100, 10]⟩]).index
      = [packQB 0 0, packQB 1 1] := by
  have h := C3_index_records
    [⟨0, [104, 101, 108, 108, 111, 10]⟩, ⟨1, [119, 111, 114, 108, 100, 10]⟩]
    (by rfl) (by rfl)
  rw [h.1]
  rfl

/-- Unfolding of the resolution pipeline into its stages. -/
theorem flag_vals_for_opdef_characterization (od : OpDef) (user : AList)
    (force : Bool) :
    flag_vals_for_opdef od user force =
      match normalize_flag_aliases od.flags user force with
      | .error e => .error e
      | .ok vals1 =>
        match _apply_coerce_flag_vals od.flags force
            (_apply_default_flag_vals od.flags vals1) with
        | .error e => .error e
        | .ok vals3 =>
          if force then .ok (_apply_choice_vals od.flags user vals3)
          else
            match _check_no_such_flags vals3 od.flags with
            | .error e => .error e
            | .ok _ =>
              match _check_flag_vals vals3 od.flags with
              | .error e => .error e
              | .ok _ =>
                match _check_required_flags vals3 od.flags with
                | .error e => .error e
                | .ok _ => .ok (_apply_choice_vals od.flags user vals3) := by
  cases h1 : normalize_flag_aliases od.flags user force with
  | error e => simp [flag_vals_for_opdef, h1, Bind.bind, Except.bind]
  | ok vals1 =>
    cases h3 : _apply_coerce_flag_vals od.flags force
        (_apply_default_flag_vals od.flags vals1) with
    | error e => simp [flag_vals_for_opdef, h1, h3, Bind.bind, Except.bind]
    | ok vals3 =>
      cases force with
      | true =>
        simp [flag_vals_for_opdef, h1, h3, Bind.bind, Except.bind, Pure.pure,
          Except.pure]
      | false =>
        cases hc1 : _check_no_such_flags vals3 od.flags with
        | error e =>
          simp [flag_vals_for_opdef, h1, h3, hc1, Bind.bind, Except.bind]
        | ok u1 =>
          cases hc2 : _check_flag_vals vals3 od.flags with
          | error e =>
            simp [flag_vals_for_opdef, h1, h3, hc1, hc2, Bind.bind, Except.bind]
          | ok u2 =>
            cases hc3 : _check_required_flags vals3 od.flags with
            | error e =>
              simp [flag_vals_for_opdef, h1, h3, hc1, hc2, hc3, Bind.bind,
                Except.bind]
            | ok u3 =>
              simp [flag_vals_for_opdef, h1, h3, hc1, hc2, hc3, Bind.bind,
                Except.bind, Pure.pure, Except.pure]

/-- The choice tables carry no null/empty replacement or implied value. -/
def choiceSafe (flagdefs : List FlagDef) : Prop :=
  ∀ fd ∈ flagdefs, ∀ c ∈ fd.choices,
    _flag_missing c.value = false ∧ ∀ kv ∈ c.flags, _flag_missing kv.2 = false

theorem pyGet_alSet_self (m : AList) (k : String) (v : FlagVal) :
    pyGet (alSet m k v) k = v := by
  rw [pyGet, alGet_alSet_self]
  rfl

theorem pyGet_alSet_ne (m : AList) (k k' : String) (v : FlagVal) (h : k ≠ k') :
    pyGet (alSet m k v) k' = pyGet m k' := by
  rw [pyGet, alGet_alSet_ne _ _ _ _ h, pyGet]

theorem apply_choice_flags_not_missing (cf user : AList) (n : String)
    (hsafe : ∀ kv ∈ cf, _flag_missing kv.2 = false) :
    ∀ tv, _flag_missing (pyGet tv n) = false →
      _flag_missing (pyGet (_apply_choice_flags cf user tv) n) = false := by
  induction cf with
  | nil => intro tv h; exact h
  | cons kv rest ih =>
    intro tv h
    rw [_apply_choice_flags, List.foldl_cons]
    have hstep : _flag_missing
        (pyGet (if isNone (pyGet user kv.1) then alSet tv kv.1 kv.2 else tv) n)
        = false := by
      by_cases hc : isNone (pyGet user kv.1)
      · rw [if_pos hc]
        by_cases hk : kv.1 = n
        · subst hk
          rw [pyGet_alSet_self]
          exact hsafe kv (List.mem_cons_self kv rest)
        · rw [pyGet_alSet_ne _ _ _ _ hk]
          exact h
      · rw [if_neg hc]
        exact h
    have h2 := ih (fun kv2 hm => hsafe kv2 (List.mem_cons_of_mem kv hm))
      (if isNone (pyGet user kv.1) then alSet tv kv.1 kv.2 else tv) hstep
    rw [_apply_choice_flags] at h2
    exact h2

theorem applyChoiceLoop_not_missing (fd : FlagDef) (flag_val : FlagVal)
    (user : AList) (cs : List FlagChoice) (n : String)
    (hsafe : ∀ c ∈ cs,
      _flag_missing c.value = false ∧ ∀ kv ∈ c.flags, _flag_missing kv.2 = false) :
    ∀ tv, _flag_missing (pyGet tv n) = false →
      _flag_missing (pyGet (applyChoiceLoop fd flag_val user cs tv) n) = false := by
  induction cs with
  | nil => intro tv h; exact h
  | cons c rest ih =>
    intro tv h
    rw [applyChoiceLoop]
    have hsafe1 := hsafe c (List.mem_cons_self c rest)
    have hsaferest := fun c2 hm => hsafe c2 (List.mem_cons_of_mem c hm)
    by_cases hm : (pyEq (aliasOrValue c) flag_val : Bool)
    · rw [if_neg (by simp [hm])]
      have h1 : _flag_missing
          (pyGet (if optStrTruthy c.alias_ then alSet tv fd.name c.value else tv) n)
          = false := by
        by_cases ha : optStrTruthy c.alias_
        · rw [if_pos ha]
          by_cases hk : fd.name = n
          · subst hk
            rw [pyGet_alSet_self]
            exact hsafe1.1
          · rw [pyGet_alSet_ne _ _ _ _ hk]
            exact h
        · rw [if_neg ha]
          exact h
      apply ih hsaferest
      by_cases hf : c.flags.isEmpty
      · simp only [hf, Bool.not_true, Bool.false_eq_true, if_false]
        exact h1
      · simp only [hf, Bool.not_false, if_true]
        exact apply_choice_flags_not_missing c.flags user n hsafe1.2 _ h1
    · rw [if_pos (by simp [hm])]
      exact ih hsaferest tv h

theorem apply_choice_vals_not_missing (flagdefs : List FlagDef) (user : AList)
    (n : String) (hsafe : choiceSafe flagdefs) :
    ∀ tv, _flag_missing (pyGet tv n) = false →
      _flag_missing (pyGet (_apply_choice_vals flagdefs user tv) n) = false := by
  induction flagdefs with
  | nil => intro tv h; exact h
  | cons fd rest ih =>
    intro tv h
    rw [_apply_choice_vals, List.foldl_cons]
    have hsafefd := hsafe fd (List.mem_cons_self fd rest)
    have hsaferest : choiceSafe rest :=
      fun fd2 hm => hsafe fd2 (List.mem_cons_of_mem fd hm)
    have hstep : _flag_missing (pyGet
        (if fd.choices.isEmpty then tv
         else
          if isNone (pyGet tv fd.name) then tv
          else applyChoiceLoop fd (pyGet tv fd.name) user fd.choices tv) n)
        = false := by
      by_cases h1 : fd.choices.isEmpty
      · rw [if_pos h1]
        exact h
      · rw [if_neg h1]
        by_cases h2 : isNone (pyGet tv fd.name)
        · rw [if_pos h2]
          exact h
        · rw [if_neg h2]
          exact applyChoiceLoop_not_missing fd (pyGet tv fd.name) user fd.choices
            n hsafefd tv h
    have h2 := ih hsaferest _ hstep
    rw [_apply_choice_vals] at h2
    exact h2

/-- C2 counterexample: a required flag `B` with the choice
`{value: "", alias: "c"}` resolves successfully for the user value
`B = "c"` — the required check passes on the pre-choice value, then the
choice-value substitution (applied after the check) replaces it with
the empty string, so the returned map carries a required parameter
whose final value is missing. -/
theorem C2_counterexample :
    flag_vals_for_opdef
        { flags := [{ name := "B",
                      required := true,
                      choices := [{ value := .str "", alias_ := some "c" }] }] }
        [("B", .str "c")] false
      = .ok [("B", .str "")]
    ∧ _flag_missing (.str "") = true := by
  constructor
  · simp [flag_vals_for_opdef, normalize_flag_aliases, _apply_default_flag_vals,
      alHasKey, alGet, _apply_coerce_flag_vals, _coerced_flag_value,
      coerce_flag_value, isNone, typeFalsy, is_flag_function, _check_no_such_flags,
      _check_flag_vals, _check_flag_val, _check_flag_val_, _check_flag_choice,
      _check_flag_type, _check_flag_range, _check_required_flags, _missing_flags,
      _flag_missing, _apply_choice_vals, applyChoiceLoop, aliasOrValue,
      optStrTruthy, pyEq, numVal, pyGet, pyTruthy, alSet, _apply_choice_flags,
      List.find?, List.any, List.filter, Bind.bind, Except.bind, Pure.pure,
      Except.pure, Functor.map, Except.map]
  · simp [_flag_missing, isNone, pyEq, numVal]

/-- C2 amended: (a) under the corresponding safety condition on choice
tables (no null/empty choice replacement value and no null/empty
implied value), resolution without force never returns a map whose
required parameters read back null or empty; (b) when the pipeline
reaches the required check (aliases, coercion, unknown-key and value
checks all passed) and some required values are missing, the single
raised error is `MissingRequiredFlags` listing the names of *all*
missing required flags, not only the first. -/
theorem C2_required_flags (od : OpDef) (user : AList) :
    (choiceSafe od.flags →
      ∀ m, flag_vals_for_opdef od user false = .ok m →
        ∀ fd ∈ od.flags, fd.required = true →
          _flag_missing (pyGet m fd.name) = false)
    ∧ (∀ vals1 vals3,
      normalize_flag_aliases od.flags user false = .ok vals1 →
      _apply_coerce_flag_vals od.flags false
          (_apply_default_flag_vals od.flags vals1) = .ok vals3 →
      _check_no_such_flags vals3 od.flags = .ok () →
      _check_flag_vals vals3 od.flags = .ok () →
      (_missing_flags vals3 od.flags).isEmpty = false →
      flag_vals_for_opdef od user false
        = .error (.missingRequiredFlags
            ((_missing_flags vals3 od.flags).map (fun fd => fd.name)))) := by
  constructor
  · intro hsafe m hok fd hfd hreq
    rw [flag_vals_for_opdef_characterization] at hok
    cases h1 : normalize_flag_aliases od.flags user false with
    | error e => simp [h1] at hok
    | ok vals1 =>
      simp only [h1] at hok
      cases h3 : _apply_coerce_flag_vals od.flags false
          (_apply_default_flag_vals od.flags vals1) with
      | error e => simp [h3] at hok
      | ok vals3 =>
        simp only [h3] at hok
        rw [if_neg (by simp)] at hok
        cases hc1 : _check_no_such_flags vals3 od.flags with
        | error e => simp [hc1] at hok
        | ok u1 =>
          simp only [hc1] at hok
          cases hc2 : _check_flag_vals vals3 od.flags with
          | error e => simp [hc2] at hok
          | ok u2 =>
            simp only [hc2] at hok
            cases hc3 : _check_required_flags vals3 od.flags with
            | error e => simp [hc3] at hok
            | ok u3 =>
              simp only [hc3, Except.ok.injEq] at hok
              have hempty : (_missing_flags vals3 od.flags).isEmpty = true := by
                by_contra hne
                rw [_check_required_flags] at hc3
                rw [if_neg hne] at hc3
                exact absurd hc3 (by simp)
              have hmiss : _flag_missing (pyGet vals3 fd.name) = false := by
                have hnil : _missing_flags vals3 od.flags = [] :=
                  List.isEmpty_iff.mp hempty
                rw [_missing_flags] at hnil
                have := List.filter_eq_nil_iff.mp hnil fd hfd
                simp only [hreq, Bool.true_and, Bool.not_eq_true] at this
                simpa using this
              rw [← hok]
              exact apply_choice_vals_not_missing od.flags user fd.name hsafe
                vals3 hmiss
  · intro vals1 vals3 h1 h3 hc1 hc2 hne
    rw [flag_vals_for_opdef_characterization]
    simp only [h1, h3]
    rw [if_neg (by simp)]
    simp only [hc1, hc2]
    rw [_check_required_flags, if_neg (by simp [hne])]

/-- C2 amended witness: a required flag left unset yields the aggregated
missing-required error naming it. -/
theorem C2_required_flags_witness :
    flag_vals_for_opdef { flags := [{ name := "R", required := true },
        { name := "S", required := true }] } [] false
      = .error (.missingRequiredFlags ["R", "S"]) := by
  have h := (C2_required_flags
    { flags := [{ name := "R", required := true },
        { name := "S", required := true }] } []).2
    [] [("R", FlagVal.none), ("S", FlagVal.none)]
    (by rfl)
    (by simp [_apply_default_flag_vals, alHasKey, alGet, alSet,
      _apply_coerce_flag_vals, _coerced_flag_value, coerce_flag_value, isNone,
      typeFalsy, is_flag_function, List.find?, Functor.map, Except.map])
    (by rfl)
    (by simp [_check_flag_vals, _check_flag_val, _check_flag_val_,
      _check_flag_choice, _check_flag_type, _check_flag_range, isNone, pyGet,
      alGet, pyTruthy, is_flag_function, Bind.bind, Except.bind, Pure.pure,
      Except.pure])
    (by simp [_missing_flags, _flag_missing, isNone, pyGet, alGet, List.filter])
  rw [h]
  simp [_missing_flags, _flag_missing, isNone, pyGet, alGet, List.filter]

theorem parseFloatBody_canonical (body : List Char) (neg : Bool) (q : Int × Nat)
    (h : parseFloatBody body neg = some q) :
    q.2 = 0 ∨ q.1.natAbs % 10 ≠ 0 := by
  rw [parseFloatBody] at h
  split at h
  · exact absurd h (by simp)
  · split at h
    · simp only [Option.some.injEq] at h
      subst h
      cases normFrac10_canonical
          ((body.dropWhile (fun c => c ≠ dotChar)).tail).length
          (digitsValue (body.takeWhile (fun c => c ≠ dotChar)) *
              10 ^ ((body.dropWhile (fun c => c ≠ dotChar)).tail).length +
            digitsValue ((body.dropWhile (fun c => c ≠ dotChar)).tail)) with
      | inl hc =>
        left
        exact hc
      | inr hc =>
        right
        cases neg <;> simpa using hc
    · exact absurd h (by simp)

theorem parseFloatChars_canonical (cs : List Char) (q : Int × Nat)
    (h : parseFloatChars cs = some q) :
    q.2 = 0 ∨ q.1.natAbs % 10 ≠ 0 := by
  match cs with
  | [] => exact absurd h (by simp [parseFloatChars])
  | c :: rest =>
    rw [parseFloatChars] at h
    split at h
    · exact parseFloatBody_canonical rest true q h
    · exact parseFloatBody_canonical (c :: rest) false q h

/-- Every value the typed coercion produces from a split part is a
canonical scalar (so it encodes and decodes exactly). -/
theorem coerce_typed_canonical (p : String) (fd : FlagDef) (c : FlagVal)
    (h : _coerce_typed_flag_value (.str p) fd = .ok c) : canonicalScalar c := by
  rw [_coerce_typed_flag_value.eq_def] at h
  split at h
  · -- string
    simp only [_try_coerce_flag_val, pyStrCoerce, Except.ok.injEq] at h
    subst h
    trivial
  · -- int
    rw [if_neg (by simp [isFloat])] at h
    cases hp : parseIntChars p.data with
    | some i =>
      simp only [_try_coerce_flag_val, pyIntFun, hp, Except.ok.injEq] at h
      subst h
      trivial
    | none =>
      simp [_try_coerce_flag_val, pyIntFun, hp] at h
  · -- float
    cases hp : parseFloatChars p.data with
    | some q =>
      simp only [_try_coerce_flag_val, pyFloatFun, hp, Except.ok.injEq] at h
      subst h
      exact parseFloatChars_canonical p.data q hp
    | none =>
      simp [_try_coerce_flag_val, pyFloatFun, hp] at h
  · -- boolean
    simp only [_try_coerce_flag_val, pyBoolFun, Except.ok.injEq] at h
    subst h
    trivial
  · -- number
    rw [if_neg (by simp [isFloatOrInt])] at h
    cases hp : parseIntChars p.data with
    | some i =>
      simp only [_try_coerce_flag_val, pyIntFun, hp, Except.ok.injEq] at h
      subst h
      trivial
    | none =>
      cases hq : parseFloatChars p.data with
      | some q =>
        simp only [_try_coerce_flag_val, pyIntFun, pyFloatFun, hp, hq,
          Except.ok.injEq] at h
        subst h
        exact parseFloatChars_canonical p.data q hq
      | none =>
        simp [_try_coerce_flag_val, pyIntFun, pyFloatFun, hp, hq] at h
  · -- path
    simp only [applyResolveRelPath, Except.ok.injEq] at h
    subst h
    trivial
  · -- existing-path
    simp only [applyResolveRelPath, Except.ok.injEq] at h
    subst h
    trivial
  · -- unknown type: value returned unchanged
    simp only [Except.ok.injEq] at h
    subst h
    trivial

theorem mapM_except_ok_mem {α β ε : Type} (f : α → Except ε β) :
    ∀ (l : List α) (out : List β), l.mapM f = .ok out →
      (∀ y ∈ out, ∃ x ∈ l, f x = .ok y) ∧ out.length = l.length := by
  intro l
  induction l with
  | nil =>
    intro out h
    simp only [List.mapM_nil, pure, Except.pure, Except.ok.injEq] at h
    subst h
    exact ⟨fun y hy => absurd hy (List.not_mem_nil y), rfl⟩
  | cons a l ih =>
    intro out h
    rw [List.mapM_cons] at h
    cases hfa : f a with
    | error e =>
      rw [hfa] at h
      simp [Bind.bind, Except.bind] at h
    | ok b =>
      rw [hfa] at h
      cases hml : l.mapM f with
      | error e =>
        rw [hml] at h
        simp [Bind.bind, Except.bind] at h
      | ok bs =>
        rw [hml] at h
        simp only [Bind.bind, Except.bind, pure, Except.pure,
          Except.ok.injEq] at h
        subst h
        obtain ⟨hmem, hlen⟩ := ih bs hml
        refine ⟨?_, by simp [hlen]⟩
        intro y hy
        rcases List.mem_cons.mp hy with hy | hy
        · exact ⟨a, List.mem_cons_self a l, hy ▸ hfa⟩
        · obtain ⟨x, hx, hfx⟩ := hmem y hy
          exact ⟨x, List.mem_cons_of_mem a hx, hfx⟩

/-- C9 (spec-modelled split/join/encode/decode): for a split-mode flag,
coercing through the split path — split the encoded form, coerce each
part, re-join in encoded form — and then splitting and decoding the
result again reproduces exactly the coerced element list, provided no
coerced element's encoding contains the delimiter. -/
theorem C9_split_join_roundtrip (fd : FlagDef) (d : Char) (v : FlagVal)
    (coerced : List FlagVal)
    (hsplit : fd.argSplit = some d)
    (hcoerce : (split_encoded_flag_val (_ensure_encoded_flag_val v) d).mapM
        (fun p => _coerce_typed_flag_value (.str p) fd) = .ok coerced)
    (hdelim : ∀ c ∈ coerced, d ∉ (encode_flag_val c).data) :
    _coerce_flag_val_split_parts v fd
        = .ok (.str (join_splittable_flag_vals coerced d))
    ∧ (split_encoded_flag_val (join_splittable_flag_vals coerced d) d).map
        decode_flag_val = coerced := by
  obtain ⟨hmem, hlen⟩ := mapM_except_ok_mem _ _ _ hcoerce
  have hne : coerced ≠ [] := by
    intro hnil
    have hpne : split_encoded_flag_val (_ensure_encoded_flag_val v) d ≠ [] := by
      rw [split_encoded_flag_val]
      simp [splitOnChar_ne_nil]
    rw [hnil] at hlen
    exact hpne (List.eq_nil_of_length_eq_zero hlen.symm)
  constructor
  · rw [_coerce_flag_val_split_parts, hsplit]
    show ((split_encoded_flag_val (_ensure_encoded_flag_val v) d).mapM
        (fun p => _coerce_typed_flag_value (.str p) fd)).map
        (fun cs => FlagVal.str (join_splittable_flag_vals cs d))
      = .ok (.str (join_splittable_flag_vals coerced d))
    rw [hcoerce]
    rfl
  · rw [split_join_encoded d coerced hne hdelim, List.map_map]
    have hcongr : coerced.map (decode_flag_val ∘ encode_flag_val)
        = coerced.map id := by
      apply List.map_congr_left
      intro c hc
      obtain ⟨p, _, hp⟩ := hmem c hc
      exact decode_encode_canonical c (coerce_typed_canonical p fd c hp)
    rw [hcongr, List.map_id]

/-- C9 witness: the int-typed comma-split value `"1,2"` coerces to the
re-joined encoding of `[1, 2]`, and splitting and decoding it again
gives back `[1, 2]`. -/
theorem C9_split_join_roundtrip_witness :
    _coerce_flag_val_split_parts (.str "1,2")
        { name := "l", type := some "int", argSplit := some ',' }
      = .ok (.str (join_splittable_flag_vals [.int 1, .int 2] ','))
    ∧ (split_encoded_flag_val (join_splittable_flag_vals [.int 1, .int 2] ',') ',').map
        decode_flag_val = [.int 1, .int 2] :=
  C9_split_join_roundtrip
    { name := "l", type := some "int", argSplit := some ',' } ','
    (.str "1,2") [.int 1, .int 2] rfl (by rfl)
    (by
      intro c hc
      rcases List.mem_cons.mp hc with h | h
      · subst h
        decide
      · rcases List.mem_cons.mp h with h2 | h2
        · subst h2
          decide
        · exact absurd h2 (List.not_mem_nil c))

end GuildOps
